import Mathlib

/-!
Verification development for the mishi_server multiplayer lobby core.

The definitions below are a shallow embedding of the JavaScript source:
* `src/src/managers/roomManager.js` — room lifecycle operations,
* `src/src/wsApp.js` — WebSocket connection registry, hero-lock flow, bots,
* `src/src/handlers/roomHandlers.js` — the HTTP start-game handler,
* `src/game/multiplayer_handler.js` — the procedural map generator.

JavaScript `undefined`/`null` is modelled with `Option`; `Date.now()` and the
random source are explicit parameters; the in-memory room store is modelled by
passing the (optional) stored room in and returning the room that would be
written back, `none` meaning the operation failed and wrote nothing.
-/

namespace MishiServer

/-- A member entry in `room.players` (roomManager.js).  JS objects carry a
`nickname` only when one was supplied, hence `Option`. -/
structure Player where
  openId : String
  nickname : Option String
  isHost : Bool
  ready : Bool
  isHeroLocked : Bool
  selectedHeroId : Option String
  isBot : Bool
  joinTime : Nat
deriving DecidableEq, Repr

/-- A room object as stored in the room store (roomManager.js `createRoom`).
`gameSettings` is an opaque blob never inspected by the verified code paths and
is omitted.  `closedReason`, `endedAt`, `gameEndTime`, `gameResults` are only
written on terminal transitions and are likewise omitted. -/
structure Room where
  roomId : String
  name : String
  hostId : String
  status : String
  maxPlayers : Nat
  timeLimit : Nat
  mapId : String
  players : List Player
  createdAt : Nat
  updatedAt : Nat
  gameStartTime : Option Nat
  gameActualStartTime : Option Nat
deriving DecidableEq, Repr

/-- The hard-coded hero pool of roomManager.js. -/
def ALL_HERO_IDS : List String :=
  ["dongdong", "missO", "fox", "prometheus", "drxu", "chenYY",
   "zilin", "ying", "qinhan", "navigator"]

/-- `options` argument of `createRoom`. -/
structure CreateOptions where
  name : String
  hostId : String
  hostNickname : String
  maxPlayers : Nat
  timeLimit : Nat
  mapId : String
deriving Repr

/-- The `playerData` argument of `addPlayerToRoom`.  The source constructs the
new member object and then spreads `...playerData` LAST (roomManager.js:206),
so a caller-supplied payload overrides any field of the member — and the HTTP
join handler forwards `req.body.playerData` to it unvalidated
(roomHandlers.js:195,206).  Each field is `none` when the key is absent from
the payload (`selectedHeroId` distinguishes an absent key from an explicit
JS `null`). -/
structure PlayerData where
  openId : Option String := none
  nickname : Option String := none
  isHost : Option Bool := none
  ready : Option Bool := none
  isHeroLocked : Option Bool := none
  selectedHeroId : Option (Option String) := none
  isBot : Option Bool := none
  joinTime : Option Nat := none
deriving Repr

/-- `createRoom(options)` (roomManager.js:31).  The generated room id and the
clock are explicit inputs.  Returns `none` when the JS code throws
(empty name or host id). -/
def createRoom (options : CreateOptions) (roomId : String) (now : Nat) :
    Option Room :=
  if options.name = "" ∨ options.hostId = "" then none
  else
    some {
      roomId := roomId
      name := options.name
      hostId := options.hostId
      status := "waiting"
      maxPlayers := min (max 2 options.maxPlayers) 10
      timeLimit := options.timeLimit
      mapId := options.mapId
      players := [{
        openId := options.hostId
        nickname := some options.hostNickname
        isHost := true
        ready := false
        isHeroLocked := false
        selectedHeroId := none
        isBot := false
        joinTime := now }]
      createdAt := now
      updatedAt := now
      gameStartTime := none
      gameActualStartTime := none }

/-- Split a list at the first element satisfying `pred`: the JS pattern
`findIndex` + by-index access/update used throughout roomManager.js. -/
def splitFirst (pred : α → Bool) : List α → Option (List α × α × List α)
  | [] => none
  | x :: xs =>
    if pred x then some ([], x, xs)
    else
      match splitFirst pred xs with
      | none => none
      | some (pre, y, post) => some (x :: pre, y, post)

/-- Result of `addPlayerToRoom`: JS returns `null`, an `{error}` object, or a
`{room, player}` object. -/
inductive JoinResult where
  | nullResult : JoinResult
  | errResult (code : String) : JoinResult
  | okResult (room : Room) (player : Player) : JoinResult
deriving DecidableEq, Repr

/-- `addPlayerToRoom(roomId, playerId, playerData)` (roomManager.js:145).
`locked` is whether the per-room advisory lock `roomLocks` is currently held
by another in-flight request; in the sequential model it is `false`.  The new
member literal mirrors the source: defaults first, then the `...playerData`
spread overriding any supplied key. -/
def addPlayerToRoom (locked : Bool) (roomOpt : Option Room) (playerId : String)
    (playerData : PlayerData) (now : Nat) : JoinResult :=
  if locked then .errResult "ROOM_LOCKED"
  else
    match roomOpt with
    | none => .nullResult
    | some room =>
      if room.status ≠ "waiting" then .errResult "ROOM_NOT_WAITING"
      else if room.maxPlayers ≤ room.players.length then .errResult "ROOM_FULL"
      else
        match splitFirst (fun p => p.openId == playerId) room.players with
        | some (_, existing, _) => .okResult room existing
        | none =>
          let player : Player := {
            openId := playerData.openId.getD playerId
            nickname := playerData.nickname
            isHost := playerData.isHost.getD false
            ready := playerData.ready.getD false
            isHeroLocked := playerData.isHeroLocked.getD false
            selectedHeroId := playerData.selectedHeroId.getD none
            isBot := playerData.isBot.getD false
            joinTime := playerData.joinTime.getD now }
          let updatedRoom : Room :=
            { room with players := room.players ++ [player], updatedAt := now }
          .okResult updatedRoom player

/-- `removePlayerFromRoom(roomId, playerId)` (roomManager.js:266). -/
def removePlayerFromRoom (roomOpt : Option Room) (playerId : String)
    (now : Nat) : Option Room :=
  match roomOpt with
  | none => none
  | some room =>
    match splitFirst (fun p => p.openId == playerId) room.players with
    | none => none
    | some (pre, leaving, post) =>
      let rest := pre ++ post
      let base : Room := { room with players := rest, updatedAt := now }
      let withHost : Room :=
        if leaving.isHost then
          match rest with
          | [] => base
          | p :: ps =>
            { base with hostId := p.openId,
                        players := { p with isHost := true } :: ps }
        else base
      if withHost.players.isEmpty then
        some { withHost with status := "ended" }
      else
        some withHost

/-- `updatePlayerReady(roomId, playerId, ready)` (roomManager.js:326). -/
def updatePlayerReady (roomOpt : Option Room) (playerId : String)
    (ready : Bool) (now : Nat) : Option Room :=
  match roomOpt with
  | none => none
  | some room =>
    match splitFirst (fun p => p.openId == playerId) room.players with
    | none => none
    | some (pre, player, post) =>
      if room.status ≠ "waiting" then none
      else
        some { room with
          players := pre ++ { player with ready := ready } :: post,
          updatedAt := now }

/-- `updateData` argument of `updateRoom`; a field is `none` when the JS key is
absent or `undefined`.  Fields in the code's `disallowedFields` list are
included so the filtering behaviour itself can be verified. -/
structure UpdateData where
  roomId : Option String := none
  name : Option String := none
  hostId : Option String := none
  status : Option String := none
  maxPlayers : Option Nat := none
  timeLimit : Option Nat := none
  mapId : Option String := none
  players : Option (List Player) := none
  createdAt : Option Nat := none
  gameStartTime : Option Nat := none
  gameActualStartTime : Option Nat := none
deriving Repr

/-- `updateRoom(roomId, updateData)` (roomManager.js:106): fields in
`disallowedFields = [roomId, hostId, players, createdAt, status]` and fields
with `undefined` values are filtered out before the merge; `updatedAt` is
refreshed. -/
def updateRoom (roomOpt : Option Room) (upd : UpdateData) (now : Nat) :
    Option Room :=
  match roomOpt with
  | none => none
  | some room =>
    some { room with
      name := upd.name.getD room.name
      maxPlayers := upd.maxPlayers.getD room.maxPlayers
      timeLimit := upd.timeLimit.getD room.timeLimit
      mapId := upd.mapId.getD room.mapId
      gameStartTime :=
        match upd.gameStartTime with
        | some v => some v
        | none => room.gameStartTime
      gameActualStartTime :=
        match upd.gameActualStartTime with
        | some v => some v
        | none => room.gameActualStartTime
      updatedAt := now }

/-- `setPlayerHeroLockStatus(roomId, playerId, isLocked, heroId)`
(roomManager.js:635).  Returns `none` (JS `null`) when the room or player is
missing or the hero is already locked by a member at another index; in that
case nothing is written to the store. -/
def setPlayerHeroLockStatus (roomOpt : Option Room) (playerId : String)
    (isLocked : Bool) (heroId : Option String) (now : Nat) : Option Room :=
  match roomOpt with
  | none => none
  | some room =>
    match splitFirst (fun p => p.openId == playerId) room.players with
    | none => none
    | some (pre, player, post) =>
      let isHeroTaken := isLocked && heroId.isSome &&
        ((pre ++ post).any fun p => p.isHeroLocked && p.selectedHeroId == heroId)
      if isHeroTaken then none
      else
        let updatedPlayer : Player := { player with
          isHeroLocked := isLocked,
          selectedHeroId := if isLocked then heroId else none }
        some { room with
          players := pre ++ updatedPlayer :: post,
          updatedAt := now }

/-- Per-player placeholder written by `startGame` via
`gameStateStore.updatePlayerState` (roomManager.js:467). -/
structure PlayerPlaceholder where
  ready : Bool
  position : Nat
  items : List String
  score : Nat
  isHeroLocked : Bool
  selectedHeroId : Option String
deriving DecidableEq, Repr

/-- The game state created by `startGame`; only the fields the verified claims
mention are carried. -/
structure GameState where
  roomId : String
  timeLimit : Nat
  mapId : String
  playerStates : List (String × PlayerPlaceholder)
deriving DecidableEq, Repr

/-- `startGame(roomId)` (roomManager.js:416).  `hasExistingGameState` models
`gameStateStore.getGameState(roomId)` being truthy.  On success the updated
room (written to the store) and the created game state are returned. -/
def startGame (roomOpt : Option Room) (hasExistingGameState : Bool)
    (now : Nat) : Option (Room × GameState) :=
  match roomOpt with
  | none => none
  | some room =>
    if room.status ≠ "waiting" then none
    else if room.players.length < 1 then none
    else if hasExistingGameState then none
    else
      let gameState : GameState := {
        roomId := room.roomId
        timeLimit := room.timeLimit
        mapId := room.mapId
        playerStates := room.players.map fun p =>
          (p.openId, {
            ready := false
            position := 0
            items := []
            score := 0
            isHeroLocked := p.isHeroLocked
            selectedHeroId := p.selectedHeroId }) }
      let updatedRoom : Room := { room with
        status := "CHARACTER_SELECT"
        gameStartTime := some now
        updatedAt := now }
      some (updatedRoom, gameState)

/-- `closeRoom(roomId, reason)` (roomManager.js:381); the textual reason and
`endedAt` are not modelled. -/
def closeRoom (roomOpt : Option Room) (now : Nat) : Option Room :=
  match roomOpt with
  | none => none
  | some room =>
    if room.status = "ended" then none
    else some { room with status := "ended", updatedAt := now }

/-- `endGame(roomId, ...)` (roomManager.js:495), restricted to its effect on
the stored room; the results object is not modelled. -/
def endGame (roomOpt : Option Room) (hasGameState : Bool) (now : Nat) :
    Option Room :=
  match roomOpt with
  | none => none
  | some room =>
    if room.status ≠ "playing" then none
    else if !hasGameState then none
    else some { room with status := "ended", updatedAt := now }

/-- `checkAllPlayersLocked(roomId)` (roomManager.js:718). -/
def checkAllPlayersLocked (roomOpt : Option Room) : Bool :=
  match roomOpt with
  | none => false
  | some room =>
    if room.players.isEmpty then false
    else room.players.all fun p => p.isHeroLocked

/-- `checkAllPlayersReady(roomId)` (roomManager.js:686). -/
def checkAllPlayersReady (roomOpt : Option Room) : Bool :=
  match roomOpt with
  | none => false
  | some room =>
    if room.players.length < 2 then false
    else room.players.all fun p => p.ready

/-- `getLockedCharacters(roomId)` (roomManager.js:761): the ids locked by
members, as a list (JS uses a `Set`; only membership is ever consumed). -/
def getLockedCharacters (room : Room) : List String :=
  room.players.filterMap fun p =>
    if p.isHeroLocked then p.selectedHeroId else none

/-- `getAvailableHeroIds(roomId)` (roomManager.js:779). -/
def getAvailableHeroIds (roomOpt : Option Room) : List String :=
  match roomOpt with
  | none => ALL_HERO_IDS
  | some room =>
    ALL_HERO_IDS.filter fun id => !(getLockedCharacters room).contains id

/-! ## Room-state transition system

One step per exported mutating operation of roomManager.js, each taken in the
sequential (event-loop) execution model: the per-room advisory lock is free on
entry, so `addPlayerToRoom` runs with `locked = false`. -/

/-- `p` currently holds hero `h` locked. -/
def locksHero (h : String) (p : Player) : Bool :=
  p.isHeroLocked && p.selectedHeroId == some h

/-- The hero-uniqueness invariant: any hero id is locked by at most one member. -/
def heroLockAtMostOne (players : List Player) : Prop :=
  ∀ h : String, players.countP (locksHero h) ≤ 1

/-- One mutation of a stored room by a roomManager.js operation. -/
inductive RoomStep : Room → Room → Prop where
  | addPlayer {r r' : Room} {p : Player} (playerId : String) (pd : PlayerData)
      (now : Nat)
      (h : addPlayerToRoom false (some r) playerId pd now = .okResult r' p) :
      RoomStep r r'
  | removePlayer {r r' : Room} (playerId : String) (now : Nat)
      (h : removePlayerFromRoom (some r) playerId now = some r') : RoomStep r r'
  | setReady {r r' : Room} (playerId : String) (ready : Bool) (now : Nat)
      (h : updatePlayerReady (some r) playerId ready now = some r') :
      RoomStep r r'
  | setHeroLock {r r' : Room} (playerId : String) (isLocked : Bool)
      (heroId : Option String) (now : Nat)
      (h : setPlayerHeroLockStatus (some r) playerId isLocked heroId now
            = some r') : RoomStep r r'
  | update {r r' : Room} (upd : UpdateData) (now : Nat)
      (h : updateRoom (some r) upd now = some r') : RoomStep r r'
  | start {r r' : Room} (gs : GameState) (hasGS : Bool) (now : Nat)
      (h : startGame (some r) hasGS now = some (r', gs)) : RoomStep r r'
  | close {r r' : Room} (now : Nat)
      (h : closeRoom (some r) now = some r') : RoomStep r r'
  | endOfGame {r r' : Room} (hasGS : Bool) (now : Nat)
      (h : endGame (some r) hasGS now = some r') : RoomStep r r'

/-- Reachability of a room state from another by manager operations. -/
def RoomReachable (r0 r : Room) : Prop := Relation.ReflTransGen RoomStep r0 r

/-- A join payload that does not smuggle a hero lock through the
`...playerData` spread: the `isHeroLocked` key is absent or `false`.  The
in-repo callers of `addPlayerToRoom` other than the raw HTTP join handler
pass such payloads (`handleAddBot` passes `{isBot, nickname}`, the rewritten
join handler passes `{nickname}`). -/
def LockFreePD (pd : PlayerData) : Prop := pd.isHeroLocked.getD false = false

/-- A manager step whose join payload, if the step is a join, is lock-free;
the other operations are unrestricted. -/
inductive LockFreeStep : Room → Room → Prop where
  | addPlayer {r r' : Room} {p : Player} (playerId : String) (pd : PlayerData)
      (now : Nat) (hpd : LockFreePD pd)
      (h : addPlayerToRoom false (some r) playerId pd now = .okResult r' p) :
      LockFreeStep r r'
  | removePlayer {r r' : Room} (playerId : String) (now : Nat)
      (h : removePlayerFromRoom (some r) playerId now = some r') :
      LockFreeStep r r'
  | setReady {r r' : Room} (playerId : String) (ready : Bool) (now : Nat)
      (h : updatePlayerReady (some r) playerId ready now = some r') :
      LockFreeStep r r'
  | setHeroLock {r r' : Room} (playerId : String) (isLocked : Bool)
      (heroId : Option String) (now : Nat)
      (h : setPlayerHeroLockStatus (some r) playerId isLocked heroId now
            = some r') : LockFreeStep r r'
  | update {r r' : Room} (upd : UpdateData) (now : Nat)
      (h : updateRoom (some r) upd now = some r') : LockFreeStep r r'
  | start {r r' : Room} (gs : GameState) (hasGS : Bool) (now : Nat)
      (h : startGame (some r) hasGS now = some (r', gs)) : LockFreeStep r r'
  | close {r r' : Room} (now : Nat)
      (h : closeRoom (some r) now = some r') : LockFreeStep r r'
  | endOfGame {r r' : Room} (hasGS : Bool) (now : Nat)
      (h : endGame (some r) hasGS now = some r') : LockFreeStep r r'

/-- Reachability through manager operations whose join payloads are
lock-free. -/
def CleanReachable (r0 r : Room) : Prop :=
  Relation.ReflTransGen LockFreeStep r0 r

/-! ### Characterization lemmas for the operations -/

/-- A manager step that does not lower the room's capacity.  `updateRoom` is
the only operation that can change `maxPlayers`, and it applies no clamp. -/
def CapMonoStep (r r2 : Room) : Prop := RoomStep r r2 ∧ r.maxPlayers ≤ r2.maxPlayers

/-- Outcome of an HTTP handler: an error with a status code, or success. -/
inductive HttpResult where
  | httpError (statusCode : Nat) : HttpResult
  | httpOk : HttpResult
deriving DecidableEq, Repr

/-- `handleStartGame(req, res)` (roomHandlers.js): checks requester-is-host,
status `waiting`, exact capacity, and readiness of all non-host members
before delegating to `roomManager.startGame`. -/
def handleStartGame (roomOpt : Option Room) (userId : String)
    (hasExistingGameState : Bool) (now : Nat) :
    HttpResult × Option (Room × GameState) :=
  match roomOpt with
  | none => (.httpError 404, none)
  | some room =>
    if room.hostId ≠ userId then (.httpError 403, none)
    else if room.status ≠ "waiting" then (.httpError 400, none)
    else if room.players.length ≠ room.maxPlayers then (.httpError 400, none)
    else if !((room.players.filter fun p => p.openId != room.hostId).all
                fun p => p.ready) then (.httpError 400, none)
    else
      match startGame (some room) hasExistingGameState now with
      | none => (.httpError 500, none)
      | some res => (.httpOk, some res)


/-! ## Concrete fixtures used by witnesses and counterexamples -/

/-- The room `createRoom ⟨"lobby", "bob", "Bob", 2, 3600, "default"⟩ "r1" 0`
creates (C1 witness). -/
def roomC1c : Room := {
  roomId := "r1", name := "lobby", hostId := "bob", status := "waiting",
  maxPlayers := 2, timeLimit := 3600, mapId := "default",
  players := [{ openId := "bob", nickname := some "Bob", isHost := true,
                ready := false, isHeroLocked := false, selectedHeroId := none,
                isBot := false, joinTime := 0 }],
  createdAt := 0, updatedAt := 0, gameStartTime := none,
  gameActualStartTime := none }

/-- A character-select room where bob holds "fox" locked (C1 witness). -/
def roomC1w : Room := {
  roomId := "r1", name := "lobby", hostId := "bob",
  status := "CHARACTER_SELECT", maxPlayers := 2, timeLimit := 3600,
  mapId := "default",
  players := [
    { openId := "bob", nickname := some "Bob", isHost := true, ready := true,
      isHeroLocked := true, selectedHeroId := some "fox", isBot := false,
      joinTime := 0 },
    { openId := "alice", nickname := some "Alice", isHost := false,
      ready := true, isHeroLocked := false, selectedHeroId := none,
      isBot := false, joinTime := 1 }],
  createdAt := 0, updatedAt := 1, gameStartTime := none,
  gameActualStartTime := none }

/-- `roomC1c` after bob locks "fox" (C1 counterexample chain). -/
def roomC1mid : Room := {
  roomC1c with
  players := [{ openId := "bob", nickname := some "Bob", isHost := true,
                ready := false, isHeroLocked := true,
                selectedHeroId := some "fox", isBot := false, joinTime := 0 }],
  updatedAt := 1 }

/-- A join payload that injects a lock on "fox" through the `...playerData`
spread (C1 counterexample chain). -/
def pdC1inj : PlayerData := {
  nickname := some "Mallory", isHeroLocked := some true,
  selectedHeroId := some (some "fox") }

/-- The member the injecting join adds to `roomC1mid`: it enters already
holding "fox" locked. -/
def playerC1inj : Player := {
  openId := "mallory", nickname := some "Mallory", isHost := false,
  ready := false, isHeroLocked := true, selectedHeroId := some "fox",
  isBot := false, joinTime := 2 }

/-- `roomC1mid` after the injecting join: two members hold "fox" locked. -/
def roomC1inj : Room :=
  { roomC1mid with players := roomC1mid.players ++ [playerC1inj],
                   updatedAt := 2 }

/-- The room `createRoom ⟨"n", "H", "Host", 2, 3600, "default"⟩ "r5" 0`
creates (C5 counterexample chain). -/
def roomC5a : Room := {
  roomId := "r5", name := "n", hostId := "H", status := "waiting",
  maxPlayers := 2, timeLimit := 3600, mapId := "default",
  players := [{ openId := "H", nickname := some "Host", isHost := true,
                ready := false, isHeroLocked := false, selectedHeroId := none,
                isBot := false, joinTime := 0 }],
  createdAt := 0, updatedAt := 0, gameStartTime := none,
  gameActualStartTime := none }

/-- The member "B" joining `roomC5a` (C5 counterexample chain). -/
def playerC5B : Player := {
  openId := "B", nickname := none, isHost := false, ready := false,
  isHeroLocked := false, selectedHeroId := none, isBot := false, joinTime := 1 }

/-- `roomC5a` after "B" joined: 2 members, capacity 2. -/
def roomC5b : Room :=
  { roomC5a with players := roomC5a.players ++ [playerC5B], updatedAt := 1 }

/-- `roomC5b` after `updateRoom` lowered `maxPlayers` to 1: 2 members,
capacity 1 — the capacity bound is violated. -/
def roomC5c : Room := { roomC5b with maxPlayers := 1, updatedAt := 2 }

/-- A full waiting 2-member room (C5 witness / C7 counterexample). -/
def roomC7x : Room := {
  roomId := "r7", name := "n", hostId := "H", status := "waiting",
  maxPlayers := 2, timeLimit := 3600, mapId := "default",
  players := [
    { openId := "H", nickname := some "Host", isHost := true, ready := false,
      isHeroLocked := false, selectedHeroId := none, isBot := false,
      joinTime := 0 },
    { openId := "M", nickname := some "Mem", isHost := false, ready := false,
      isHeroLocked := false, selectedHeroId := none, isBot := false,
      joinTime := 1 }],
  createdAt := 0, updatedAt := 1, gameStartTime := none,
  gameActualStartTime := none }

/-- A waiting 2-member room, capacity 2, used for the C7 witness: the member
list of a below-capacity variant.  Capacity 3 keeps it non-full. -/
def roomC7w : Room := { roomC7x with maxPlayers := 3 }

/-- A 2-member waiting room hosted by "H" (C6 witness). -/
def roomC6w : Room := roomC7x

/-- A waiting room with a single not-ready member and capacity 4
(C4 counterexample: `startGame` succeeds on it). -/
def roomC4x : Room := {
  roomId := "r4", name := "n", hostId := "H", status := "waiting",
  maxPlayers := 4, timeLimit := 3600, mapId := "default",
  players := [{ openId := "H", nickname := some "Host", isHost := true,
                ready := false, isHeroLocked := false, selectedHeroId := none,
                isBot := false, joinTime := 0 }],
  createdAt := 0, updatedAt := 0, gameStartTime := none,
  gameActualStartTime := none }

/-- A full waiting room whose non-host member is ready (C4 witness:
`handleStartGame` succeeds on it). -/
def roomC4w : Room := {
  roomC7x with players := [
    { openId := "H", nickname := some "Host", isHost := true, ready := false,
      isHeroLocked := false, selectedHeroId := none, isBot := false,
      joinTime := 0 },
    { openId := "M", nickname := some "Mem", isHost := false, ready := true,
      isHeroLocked := false, selectedHeroId := none, isBot := false,
      joinTime := 1 }] }

/-- A room used for the C10 witness. -/
def roomC10 : Room := {
  roomId := "r10", name := "old", hostId := "H", status := "waiting",
  maxPlayers := 4, timeLimit := 3600, mapId := "default",
  players := [{ openId := "H", nickname := some "Host", isHost := true,
                ready := false, isHeroLocked := false, selectedHeroId := none,
                isBot := false, joinTime := 0 }],
  createdAt := 0, updatedAt := 0, gameStartTime := none,
  gameActualStartTime := none }

/-- An update that tries to change the protected `status` field and the
updatable `name` field (C10 witness). -/
def updC10 : UpdateData := { status := some "playing", name := some "renamed" }

/-- What `updateRoom (some roomC10) updC10 9` returns: `name` merged,
`status` untouched. -/
def roomC10b : Room := { roomC10 with name := "renamed", updatedAt := 9 }


/-- The host member of `roomC6w` (C6 witness). -/
def playerC6H : Player := {
  openId := "H", nickname := some "Host", isHost := true, ready := false,
  isHeroLocked := false, selectedHeroId := none, isBot := false, joinTime := 0 }

/-- The non-host member of `roomC6w` (C6 witness). -/
def playerC6M : Player := {
  openId := "M", nickname := some "Mem", isHost := false, ready := false,
  isHeroLocked := false, selectedHeroId := none, isBot := false, joinTime := 1 }

/-- `roomC6w` after the host left: "M" promoted to host (C6 witness). -/
def roomC6res : Room := { roomC6w with
  hostId := "M",
  players := [{ playerC6M with isHost := true }],
  updatedAt := 7 }

/-- `roomC4x` after a successful `startGame` at time 9 (C4 witness). -/
def roomC4xStarted : Room := { roomC4x with
  status := "CHARACTER_SELECT", gameStartTime := some 9, updatedAt := 9 }

/-- The game state `startGame (some roomC4x) false 9` creates (C4 witness). -/
def gsC4x : GameState := {
  roomId := "r4", timeLimit := 3600, mapId := "default",
  playerStates := [("H", { ready := false, position := 0, items := [],
                           score := 0, isHeroLocked := false,
                           selectedHeroId := none })] }

/-- `roomC4w` after a successful `startGame` at time 9 (C4 witness). -/
def roomC4wStarted : Room := { roomC4w with
  status := "CHARACTER_SELECT", gameStartTime := some 9, updatedAt := 9 }

/-- The game state `startGame (some roomC4w) false 9` creates (C4 witness). -/
def gsC4w : GameState := {
  roomId := "r7", timeLimit := 3600, mapId := "default",
  playerStates := [
    ("H", { ready := false, position := 0, items := [], score := 0,
            isHeroLocked := false, selectedHeroId := none }),
    ("M", { ready := false, position := 0, items := [], score := 0,
            isHeroLocked := false, selectedHeroId := none })] }

/-! ## WebSocket layer (wsApp.js) -/

/-- Messages broadcast by the lock-hero flow of wsApp.js. -/
inductive WsEvent where
  | playerHeroLocked (playerId : String) (heroId : Option String)
      (isLocked : Bool) : WsEvent
  | actualGameStart (roomId : String) (roster : List (String × Option String))
      (startTime : Option Nat) : WsEvent
  | roomUpdate : WsEvent
  | errorEvent (message : String) : WsEvent
deriving DecidableEq, Repr

/-- The roster carried by ACTUAL_GAME_START: each member with the hero it
chose (wsApp.js:579, projected to the fields the claims mention). -/
def roster (room : Room) : List (String × Option String) :=
  room.players.map fun p => (p.openId, p.selectedHeroId)

/-- The `for (const bot of botsToLock)` loop of `triggerBotsToLock`
(wsApp.js:615-695).  `draws` is the stream of random draws; the k-th
consumed draw selects index `draws k % avail.length`, which ranges over
exactly the indices `Math.floor(Math.random() * avail.length)` can produce.
An iteration that finds no available hero skips its bot; after a successful
lock the loop broadcasts PLAYER_HERO_LOCKED and, when every member is now
locked, performs the `updateRoom` status flip attempt and broadcasts
ACTUAL_GAME_START. -/
def lockBotsLoop (room : Room) (bots : List Player) (draws : Nat → Nat)
    (k : Nat) (now : Nat) : Room × List WsEvent :=
  match bots with
  | [] => (room, [])
  | bot :: rest =>
    let avail := getAvailableHeroIds (some room)
    if avail.isEmpty then
      lockBotsLoop room rest draws k now
    else
      let chosen := avail.getD (draws k % avail.length) ""
      match setPlayerHeroLockStatus (some room) bot.openId true (some chosen)
          now with
      | none => lockBotsLoop room rest draws (k + 1) now
      | some room2 =>
        let startPart :=
          if checkAllPlayersLocked (some room2) then
            match updateRoom (some room2)
                { status := some "playing", gameActualStartTime := some now }
                now with
            | some finalRoom =>
              (finalRoom,
               [WsEvent.actualGameStart finalRoom.roomId (roster finalRoom)
                  finalRoom.gameActualStartTime])
            | none => (room2, ([] : List WsEvent))
          else (room2, ([] : List WsEvent))
        let recRes := lockBotsLoop startPart.1 rest draws (k + 1) now
        (recRes.1,
         WsEvent.playerHeroLocked bot.openId (some chosen) true
           :: (startPart.2 ++ recRes.2))

/-- `triggerBotsToLock(roomId)` (wsApp.js:601): snapshots the unlocked bots,
runs the lock loop, and (when there was at least one bot to lock) broadcasts
a final ROOM_UPDATE. -/
def triggerBotsToLock (room : Room) (draws : Nat → Nat) (now : Nat) :
    Room × List WsEvent :=
  let botsToLock := room.players.filter fun p => p.isBot && !p.isHeroLocked
  if botsToLock.isEmpty then (room, [])
  else
    let res := lockBotsLoop room botsToLock draws 0 now
    (res.1, res.2 ++ [WsEvent.roomUpdate])

/-- `handleLockHero(userId, data)` (wsApp.js:494): the room argument is the
room `getPlayerRoomId`/`getRoom` resolves for the user (`none` when the user
is in no room).  Returns the room finally in the store and the broadcast
events in order. -/
def handleLockHero (roomOpt : Option Room) (userId : String)
    (isLocked : Bool) (heroId : Option String) (draws : Nat → Nat)
    (now : Nat) : Option Room × List WsEvent :=
  match roomOpt with
  | none => (none, [WsEvent.errorEvent "not in a room"])
  | some room =>
    match splitFirst (fun p => p.openId == userId) room.players with
    | none => (some room, [])
    | some (_, lockingPlayer, _) =>
      match setPlayerHeroLockStatus (some room) userId isLocked heroId now with
      | none => (some room, [WsEvent.errorEvent "lock failed"])
      | some updatedRoom =>
        let lockedEntry :=
          splitFirst (fun p => p.openId == userId) updatedRoom.players
        let ev1 := WsEvent.playerHeroLocked userId
          (match lockedEntry with
           | some (_, p, _) => p.selectedHeroId
           | none => none)
          (match lockedEntry with
           | some (_, p, _) => p.isHeroLocked
           | none => false)
        if updatedRoom.status ≠ "CHARACTER_SELECT" then (some updatedRoom, [ev1])
        else
          let humans := updatedRoom.players.filter fun p => !p.isBot
          let botRes :=
            if !lockingPlayer.isBot && isLocked &&
                (humans.all fun p => p.isHeroLocked) then
              triggerBotsToLock updatedRoom draws now
            else (updatedRoom, [])
          if checkAllPlayersLocked (some botRes.1) then
            match updateRoom (some botRes.1)
                { status := some "playing", gameActualStartTime := some now }
                now with
            | some finalRoom =>
              (some finalRoom,
               ev1 :: (botRes.2 ++
                 [WsEvent.actualGameStart finalRoom.roomId (roster finalRoom)
                    finalRoom.gameActualStartTime]))
            | none => (some botRes.1, ev1 :: botRes.2)
          else (some botRes.1, ev1 :: botRes.2)

/-! ## Connection registry (wsApp.js `handleConnection`) -/

/-- The `clients` map of wsApp.js: user id → connection handle. -/
def ClientMap : Type := String → Option Nat

/-- Synchronous effects of `handleConnection`'s duplicate-connection handling
(wsApp.js:117-135), in program order. -/
inductive ConnEffect where
  | sendReplaced (conn : Nat) : ConnEffect
  | scheduleCloseOld (conn : Nat) (delayMs : Nat) : ConnEffect
  | admitNew (userId : String) (conn : Nat) : ConnEffect
deriving DecidableEq, Repr

/-- The registry update `handleConnection` performs for `userId` with the new
transport `newConn`: when a previous connection exists and is OPEN it is sent
CONNECTION_REPLACED and its forced close is scheduled via
`setTimeout(..., 100)`; the old entry is deleted and the new one stored. -/
def registerConnection (clients : ClientMap) (isOpen : Nat → Bool)
    (userId : String) (newConn : Nat) : ClientMap × List ConnEffect :=
  let oldEffects :=
    match clients userId with
    | some oldConn =>
      if isOpen oldConn then
        [ConnEffect.sendReplaced oldConn,
         ConnEffect.scheduleCloseOld oldConn 100]
      else []
    | none => []
  (fun u => if u = userId then some newConn else clients u,
   oldEffects ++ [ConnEffect.admitNew userId newConn])

/-- Actions as they are actually delivered on the JS event loop. -/
inductive RealizedAction where
  | actSendReplaced (conn : Nat) : RealizedAction
  | actAdmitNew (userId : String) (conn : Nat) : RealizedAction
  | actCloseOld (conn : Nat) : RealizedAction
deriving DecidableEq, Repr

/-- Realized timeline of the handler's effects: a synchronous effect at list
position i happens at time i, while a close scheduled by `setTimeout` with
delay d fires only after the whole synchronous handler has run (JS event
loop), at time `effects.length + d`. -/
def realizedTimeline (effects : List ConnEffect) :
    List (Nat × RealizedAction) :=
  effects.enum.map fun ie =>
    match ie.2 with
    | ConnEffect.sendReplaced c => (ie.1, RealizedAction.actSendReplaced c)
    | ConnEffect.scheduleCloseOld c d =>
        (effects.length + d, RealizedAction.actCloseOld c)
    | ConnEffect.admitNew u c => (ie.1, RealizedAction.actAdmitNew u c)

/-! ## Fixtures for the WebSocket-layer claims -/

/-- A character-select room: host H holds "fox", human member M unlocked
(C3 failing input). -/
def roomC3x : Room := {
  roomId := "r3", name := "n", hostId := "H", status := "CHARACTER_SELECT",
  maxPlayers := 2, timeLimit := 3600, mapId := "default",
  players := [
    { openId := "H", nickname := some "Host", isHost := true, ready := true,
      isHeroLocked := true, selectedHeroId := some "fox", isBot := false,
      joinTime := 0 },
    { openId := "M", nickname := some "Mem", isHost := false, ready := true,
      isHeroLocked := false, selectedHeroId := none, isBot := false,
      joinTime := 1 }],
  createdAt := 0, updatedAt := 1, gameStartTime := some 2,
  gameActualStartTime := none }

/-- A character-select room with one locked human and one unlocked bot
(C9 witness). -/
def roomC9w : Room := {
  roomId := "r9", name := "n", hostId := "H", status := "CHARACTER_SELECT",
  maxPlayers := 2, timeLimit := 3600, mapId := "default",
  players := [
    { openId := "H", nickname := some "Host", isHost := true, ready := true,
      isHeroLocked := true, selectedHeroId := some "fox", isBot := false,
      joinTime := 0 },
    { openId := "bot1", nickname := some "Bot", isHost := false,
      ready := true, isHeroLocked := false, selectedHeroId := none,
      isBot := true, joinTime := 1 }],
  createdAt := 0, updatedAt := 1, gameStartTime := some 2,
  gameActualStartTime := none }

/-- A client map with one live connection, handle 1, for user "u"
(C8 fixtures). -/
def clientsC8 : ClientMap := fun u => if u = "u" then some 1 else none


/-! ## Map generator (src/game/multiplayer_handler.js)

The 7×7 layout is a function from grid positions to exit lists.  Randomly
generated layouts are covered by quantifying over arbitrary initial exit
assignments: `generateRooms` builds some assignment (hall with all four
exits, border-derived exits for the exit room, 0–3 random exits elsewhere)
over exactly the 49 grid cells and then calls `ensureRoomConnections` as its
final step before returning. -/

/-- Exit directions of a map cell. -/
inductive Dir where
  | up
  | down
  | left
  | right
deriving DecidableEq, Repr

/-- `getOppositeDirection` (multiplayer_handler.js:21). -/
def Dir.opposite : Dir → Dir
  | .up => .down
  | .down => .up
  | .left => .right
  | .right => .left

/-- A grid coordinate (rooms carry x, y in 0..6). -/
structure Pos where
  x : Nat
  y : Nat
deriving DecidableEq, Repr

/-- Exit assignment of the whole layout: the `exits` array of the room
object at each position (rooms are uniquely keyed by their coordinates). -/
def ExitMap : Type := Pos → List Dir

/-- Within the 7×7 grid. -/
def inGrid (p : Pos) : Bool := p.x < 7 && p.y < 7

/-- The 49 cells of the grid. -/
def gridCells : List Pos :=
  (List.range 49).map fun n => ⟨n % 7, n / 7⟩

/-- The fixed hall cell at (3,3). -/
def center : Pos := ⟨3, 3⟩

/-- `directionMap` (multiplayer_handler.js:14): `q` is the neighbour of `p`
one step in direction `d` (up decreases y, down increases y). -/
def dirStepB (p : Pos) (d : Dir) (q : Pos) : Bool :=
  match d with
  | .up => q.x == p.x && q.y + 1 == p.y
  | .down => q.x == p.x && q.y == p.y + 1
  | .left => q.x + 1 == p.x && q.y == p.y
  | .right => q.x == p.x + 1 && q.y == p.y

/-- `areRoomsAdjacent` (multiplayer_handler.js:83). -/
def adjacentB (a b : Pos) : Bool :=
  (Nat.dist a.x b.x == 1 && a.y == b.y) ||
  (Nat.dist a.y b.y == 1 && a.x == b.x)

/-- `getDirection` (multiplayer_handler.js:91).  On equal coordinates the JS
returns the empty string; that case is unreachable on the adjacent, distinct
cells the path walker feeds it, and is mapped to `up`. -/
def getDirection (a b : Pos) : Dir :=
  if a.x < b.x then .right
  else if b.x < a.x then .left
  else if a.y < b.y then .down
  else .up

/-- Manhattan distance (`Math.abs(dx) + Math.abs(dy)` in the JS). -/
def manhattan (a b : Pos) : Nat := Nat.dist a.x b.x + Nat.dist a.y b.y

/-- `room.exits.push(direction)` guarded by `includes` (multiplayer_handler.js:126). -/
def addExit (E : ExitMap) (p : Pos) (d : Dir) : ExitMap :=
  fun q =>
    if q = p then (if (E p).contains d then E p else E p ++ [d]) else E q

/-- One reciprocated edge of the room graph built by `ensureRoomConnections`
(multiplayer_handler.js:148-165): an exit counts only if the neighbouring
cell exists and reciprocates with the opposite exit. -/
def recipAdjB (E : ExitMap) (p q : Pos) : Bool :=
  inGrid p && inGrid q &&
  ([Dir.up, Dir.down, Dir.left, Dir.right].any fun d =>
    dirStepB p d q && (E p).contains d && (E q).contains d.opposite)

/-- Reachability along reciprocated exits. -/
def Reach (E : ExitMap) (p q : Pos) : Prop :=
  Relation.ReflTransGen (fun a b => recipAdjB E a b = true) p q

/-- The BFS queue loop of `ensureRoomConnections` (multiplayer_handler.js:
177-187), fuelled. -/
def bfsAux (E : ExitMap) (allRooms : List Pos) :
    Nat → List Pos → List Pos → List Pos
  | 0, _, visited => visited
  | _ + 1, [], visited => visited
  | fuel + 1, cur :: queue, visited =>
    let nbrs := allRooms.filter fun q =>
      recipAdjB E cur q && !(visited.contains q)
    bfsAux E allRooms fuel (queue ++ nbrs) (visited ++ nbrs)

/-- The visited set of the breadth-first traversal from the hall. -/
def bfsVisited (E : ExitMap) (allRooms : List Pos) (start : Pos) : List Pos :=
  bfsAux E allRooms (allRooms.length * allRooms.length + 1) [start] [start]

/-- The `closestConnectedRoom` selection (multiplayer_handler.js:196-208):
strict-minimum scan over the room array, initialised with the start node and
infinite distance. -/
def closestConnected (visited : List Pos) (allRooms : List Pos) (r : Pos) :
    Pos :=
  (allRooms.foldl
    (fun best cand =>
      if visited.contains cand then
        match best.2 with
        | none => (cand, some (manhattan r cand))
        | some d =>
          if manhattan r cand < d then (cand, some (manhattan r cand))
          else best
      else best)
    (center, (none : Option Nat))).1

/-- Stable insertion into a list sorted by distance to `target`
(`neighbors.sort` comparator of multiplayer_handler.js:115). -/
def insertByDist (target r : Pos) : List Pos → List Pos
  | [] => [r]
  | q :: qs =>
    if manhattan r target ≤ manhattan q target then r :: q :: qs
    else q :: insertByDist target r qs

/-- Stable sort by distance to `target`. -/
def sortByDist (target : Pos) : List Pos → List Pos
  | [] => []
  | r :: rs => insertByDist target r (sortByDist target rs)

/-- `createPathBetweenRooms` (multiplayer_handler.js:100): greedy walk from
`current` toward `endR`, keeping a visited set, at each step moving to the
unvisited adjacent room closest to the target and adding the missing
reciprocal exit pair.  The JS `while` loop is fuelled; distance to the
target strictly decreases, so any fuel above the grid diameter suffices. -/
def createPath (endR : Pos) (allRooms : List Pos) :
    Nat → Pos → List Pos → ExitMap → Bool × ExitMap
  | 0, _, _, E => (false, E)
  | fuel + 1, current, visitedP, E =>
    if current = endR then (true, E)
    else
      let nbrs := allRooms.filter fun q =>
        adjacentB current q && !(visitedP.contains q)
      match sortByDist endR nbrs with
      | [] => (false, E)
      | next :: _ =>
        let d := getDirection current next
        let E1 := addExit E current d
        let E2 := addExit E1 next d.opposite
        createPath endR allRooms fuel next (visitedP ++ [next]) E2

/-- `ensureRoomConnections` (multiplayer_handler.js:141): BFS from the hall
over reciprocated exits, then stitch every unreached room to its nearest
reached room with `createPathBetweenRooms`. -/
def ensureRoomConnections (E : ExitMap) (allRooms : List Pos) : ExitMap :=
  let visited := bfsVisited E allRooms center
  let unconnected := allRooms.filter fun r => !(visited.contains r)
  unconnected.foldl
    (fun Ecur r =>
      (createPath (closestConnected visited allRooms r) allRooms 49 r [r]
        Ecur).2)
    E


/-- Pointwise containment of exit assignments: the path-stitching pass only
ever adds exits. -/
def ExitLE (E F : ExitMap) : Prop := ∀ p d, d ∈ E p → d ∈ F p

/-! # Theorems -/

theorem splitFirst_eq_none {pred : α → Bool} {l : List α} :
    splitFirst pred l = none ↔ ∀ x ∈ l, pred x = false := by
  induction l with
  | nil => simp [splitFirst]
  | cons x xs ih =>
    by_cases hx : pred x
    · simp [splitFirst, hx]
    · constructor
      · intro h a ha
        rcases List.mem_cons.mp ha with rfl | ha
        · simpa using hx
        · refine ih.mp ?_ a ha
          cases hrec : splitFirst pred xs with
          | none => rfl
          | some v =>
            obtain ⟨p1, p2, p3⟩ := v
            simp [splitFirst, hx, hrec] at h
      · intro hall
        have h2 : splitFirst pred xs = none :=
          ih.mpr fun a ha => hall a (List.mem_cons_of_mem _ ha)
        simp [splitFirst, hx, h2]

theorem splitFirst_eq_some {pred : α → Bool} {l pre post : List α} {y : α}
    (h : splitFirst pred l = some (pre, y, post)) :
    l = pre ++ y :: post ∧ pred y = true ∧ ∀ x ∈ pre, pred x = false := by
  induction l generalizing pre with
  | nil => simp [splitFirst] at h
  | cons x xs ih =>
    by_cases hx : pred x
    · simp only [splitFirst, hx, if_true, Option.some.injEq, Prod.mk.injEq] at h
      obtain ⟨h1, h2, h3⟩ := h
      subst h1; subst h2; subst h3
      exact ⟨rfl, hx, by simp⟩
    · rw [show splitFirst pred (x :: xs) =
          (match splitFirst pred xs with
           | none => none
           | some (pre, y, post) => some (x :: pre, y, post)) by
        simp [splitFirst, hx]] at h
      cases hrec : splitFirst pred xs with
      | none => rw [hrec] at h; exact absurd h (by simp)
      | some v =>
        obtain ⟨pre2, y2, post2⟩ := v
        rw [hrec] at h
        simp only [Option.some.injEq, Prod.mk.injEq] at h
        obtain ⟨h1, h2, h3⟩ := h
        subst h2; subst h3
        obtain ⟨hl, hy, hpre⟩ := ih hrec
        subst h1
        refine ⟨by rw [hl]; rfl, hy, ?_⟩
        intro a ha
        rcases List.mem_cons.mp ha with rfl | ha
        · simpa using hx
        · exact hpre a ha

theorem addPlayerToRoom_ok {r r' : Room} {p : Player} {playerId : String}
    {pd : PlayerData} {now : Nat}
    (h : addPlayerToRoom false (some r) playerId pd now = .okResult r' p) :
    r.status = "waiting" ∧ r.players.length < r.maxPlayers ∧
    ((r' = r ∧ p ∈ r.players ∧ p.openId = playerId) ∨
     (p = { openId := pd.openId.getD playerId, nickname := pd.nickname,
            isHost := pd.isHost.getD false, ready := pd.ready.getD false,
            isHeroLocked := pd.isHeroLocked.getD false,
            selectedHeroId := pd.selectedHeroId.getD none,
            isBot := pd.isBot.getD false,
            joinTime := pd.joinTime.getD now } ∧
      r' = { r with players := r.players ++ [p], updatedAt := now } ∧
      ∀ q ∈ r.players, (q.openId == playerId) = false)) := by
  rw [addPlayerToRoom] at h
  by_cases hst : r.status = "waiting"
  · by_cases hfull : r.maxPlayers ≤ r.players.length
    · simp [hst, hfull] at h
    · refine ⟨hst, by omega, ?_⟩
      simp only [Bool.false_eq_true, if_false, hst, ne_eq, not_true_eq_false,
        hfull, if_true] at h
      cases hsplit : splitFirst (fun q => q.openId == playerId) r.players with
      | some v =>
        obtain ⟨pre, existing, post⟩ := v
        rw [hsplit] at h
        simp only [JoinResult.okResult.injEq] at h
        obtain ⟨rfl, rfl⟩ := h
        obtain ⟨hl, hy, _⟩ := splitFirst_eq_some hsplit
        refine Or.inl ⟨rfl, ?_, by simpa using hy⟩
        rw [hl]; simp
      | none =>
        rw [hsplit] at h
        simp only [JoinResult.okResult.injEq] at h
        obtain ⟨h1, h2⟩ := h
        refine Or.inr ⟨h2.symm, ?_, splitFirst_eq_none.mp hsplit⟩
        rw [← h1, ← h2, hst]
  · simp [hst] at h

theorem removePlayerFromRoom_some {r r' : Room} {playerId : String} {now : Nat}
    (h : removePlayerFromRoom (some r) playerId now = some r') :
    ∃ pre leaving post,
      splitFirst (fun q => q.openId == playerId) r.players
        = some (pre, leaving, post) ∧
      ((pre ++ post = [] ∧
        r' = { r with players := [], status := "ended", updatedAt := now }) ∨
       (∃ q qs, pre ++ post = q :: qs ∧ leaving.isHost = true ∧
        r' = { r with players := { q with isHost := true } :: qs,
                      hostId := q.openId, updatedAt := now }) ∨
       (∃ q qs, pre ++ post = q :: qs ∧ leaving.isHost = false ∧
        r' = { r with players := q :: qs, updatedAt := now })) := by
  rw [removePlayerFromRoom] at h
  cases hsplit : splitFirst (fun q => q.openId == playerId) r.players with
  | none => rw [hsplit] at h; exact absurd h (by simp)
  | some v =>
    obtain ⟨pre, leaving, post⟩ := v
    rw [hsplit] at h
    refine ⟨pre, leaving, post, rfl, ?_⟩
    simp only at h
    by_cases hish : leaving.isHost
    · cases hrest : pre ++ post with
      | nil =>
        rw [hrest] at h
        simp only [hish, if_true, List.isEmpty_nil, if_true,
          Option.some.injEq] at h
        exact Or.inl ⟨rfl, h.symm⟩
      | cons q qs =>
        rw [hrest] at h
        simp only [hish, if_true, List.isEmpty_cons, Bool.false_eq_true,
          if_false, Option.some.injEq] at h
        exact Or.inr (Or.inl ⟨q, qs, rfl, hish, h.symm⟩)
    · cases hrest : pre ++ post with
      | nil =>
        rw [hrest] at h
        simp only [hish, if_false, Bool.false_eq_true, List.isEmpty_nil,
          if_true, Option.some.injEq] at h
        exact Or.inl ⟨rfl, h.symm⟩
      | cons q qs =>
        rw [hrest] at h
        simp only [hish, if_false, Bool.false_eq_true, List.isEmpty_cons,
          Option.some.injEq] at h
        exact Or.inr (Or.inr ⟨q, qs, rfl, by simpa using hish, h.symm⟩)


theorem updatePlayerReady_some {r r' : Room} {playerId : String} {ready : Bool}
    {now : Nat}
    (h : updatePlayerReady (some r) playerId ready now = some r') :
    ∃ pre player post,
      splitFirst (fun q => q.openId == playerId) r.players
        = some (pre, player, post) ∧
      r.status = "waiting" ∧
      r' = { r with players := pre ++ { player with ready := ready } :: post,
                    updatedAt := now } := by
  rw [updatePlayerReady] at h
  cases hsplit : splitFirst (fun q => q.openId == playerId) r.players with
  | none => rw [hsplit] at h; exact absurd h (by simp)
  | some v =>
    obtain ⟨pre, player, post⟩ := v
    rw [hsplit] at h
    by_cases hst : r.status = "waiting"
    · simp only [hst, ne_eq, not_true_eq_false, if_false, Option.some.injEq] at h
      refine ⟨pre, player, post, rfl, hst, ?_⟩
      rw [← h, hst]
    · simp [hst] at h

theorem setPlayerHeroLockStatus_some {r r' : Room} {playerId : String}
    {isLocked : Bool} {heroId : Option String} {now : Nat}
    (h : setPlayerHeroLockStatus (some r) playerId isLocked heroId now
          = some r') :
    ∃ pre player post,
      splitFirst (fun q => q.openId == playerId) r.players
        = some (pre, player, post) ∧
      (isLocked && heroId.isSome &&
        ((pre ++ post).any fun q =>
          q.isHeroLocked && q.selectedHeroId == heroId)) = false ∧
      r' = { r with
        players := pre ++ { player with
          isHeroLocked := isLocked,
          selectedHeroId := if isLocked then heroId else none } :: post,
        updatedAt := now } := by
  rw [setPlayerHeroLockStatus] at h
  cases hsplit : splitFirst (fun q => q.openId == playerId) r.players with
  | none => rw [hsplit] at h; exact absurd h (by simp)
  | some v =>
    obtain ⟨pre, player, post⟩ := v
    rw [hsplit] at h
    simp only at h
    by_cases htaken : (isLocked && heroId.isSome &&
        ((pre ++ post).any fun q =>
          q.isHeroLocked && q.selectedHeroId == heroId)) = true
    · rw [if_pos htaken] at h; exact absurd h (by simp)
    · rw [if_neg htaken] at h
      simp only [Option.some.injEq] at h
      exact ⟨pre, player, post, rfl, by simpa using htaken, h.symm⟩

theorem setPlayerHeroLockStatus_taken {r : Room} {playerId : String}
    {heroId : Option String} {now : Nat} {pre post : List Player}
    {player : Player}
    (hsplit : splitFirst (fun q => q.openId == playerId) r.players
      = some (pre, player, post))
    (hhero : heroId.isSome = true)
    (htaken : ((pre ++ post).any fun q =>
      q.isHeroLocked && q.selectedHeroId == heroId) = true) :
    setPlayerHeroLockStatus (some r) playerId true heroId now = none := by
  rw [setPlayerHeroLockStatus, hsplit]
  simp [hhero, htaken]

theorem startGame_some {r r' : Room} {gs : GameState} {hasGS : Bool} {now : Nat}
    (h : startGame (some r) hasGS now = some (r', gs)) :
    r.status = "waiting" ∧ 1 ≤ r.players.length ∧ hasGS = false ∧
    r' = { r with status := "CHARACTER_SELECT", gameStartTime := some now,
                  updatedAt := now } ∧
    gs = { roomId := r.roomId, timeLimit := r.timeLimit, mapId := r.mapId,
           playerStates := r.players.map fun p =>
             (p.openId, { ready := false, position := 0, items := [],
                          score := 0, isHeroLocked := p.isHeroLocked,
                          selectedHeroId := p.selectedHeroId }) } := by
  rw [startGame] at h
  by_cases hst : r.status = "waiting"
  · by_cases hlen : r.players.length < 1
    · simp [hst, hlen] at h
    · cases hasGS with
      | true => simp [hst, hlen] at h
      | false =>
        simp only [hst, ne_eq, not_true_eq_false, if_false, hlen,
          Bool.false_eq_true, Option.some.injEq, Prod.mk.injEq] at h
        exact ⟨hst, by omega, rfl, h.1.symm, h.2.symm⟩
  · simp [hst] at h

theorem closeRoom_some {r r' : Room} {now : Nat}
    (h : closeRoom (some r) now = some r') :
    r.status ≠ "ended" ∧
    r' = { r with status := "ended", updatedAt := now } := by
  rw [closeRoom] at h
  by_cases hst : r.status = "ended"
  · simp [hst] at h
  · simp only [hst, if_false, Option.some.injEq] at h
    exact ⟨hst, h.symm⟩

theorem endGame_some {r r' : Room} {hasGS : Bool} {now : Nat}
    (h : endGame (some r) hasGS now = some r') :
    r.status = "playing" ∧ hasGS = true ∧
    r' = { r with status := "ended", updatedAt := now } := by
  rw [endGame] at h
  by_cases hst : r.status = "playing"
  · cases hasGS with
    | false => simp [hst] at h
    | true =>
      simp only [hst, ne_eq, not_true_eq_false, if_false, Bool.not_true,
        Bool.false_eq_true, Option.some.injEq] at h
      exact ⟨hst, rfl, h.symm⟩
  · simp [hst] at h

theorem updateRoom_some {r : Room} {upd : UpdateData} {now : Nat} :
    updateRoom (some r) upd now = some { r with
      name := upd.name.getD r.name
      maxPlayers := upd.maxPlayers.getD r.maxPlayers
      timeLimit := upd.timeLimit.getD r.timeLimit
      mapId := upd.mapId.getD r.mapId
      gameStartTime :=
        match upd.gameStartTime with
        | some v => some v
        | none => r.gameStartTime
      gameActualStartTime :=
        match upd.gameActualStartTime with
        | some v => some v
        | none => r.gameActualStartTime
      updatedAt := now } := rfl

/-! ### Preservation of the hero-lock uniqueness invariant -/

theorem countP_locksHero_mid (pre post : List Player) (a b : Player)
    (hh : String) (hab : locksHero hh a = locksHero hh b) :
    (pre ++ b :: post).countP (locksHero hh)
      = (pre ++ a :: post).countP (locksHero hh) := by
  simp [List.countP_append, List.countP_cons, hab]

theorem heroLockAtMostOne_preserved {r r' : Room} (step : LockFreeStep r r')
    (hinv : heroLockAtMostOne r.players) : heroLockAtMostOne r'.players := by
  cases step with
  | addPlayer playerId pd now hpd h =>
    obtain ⟨-, -, hcase⟩ := addPlayerToRoom_ok h
    rcases hcase with ⟨rfl, -, -⟩ | ⟨hp, hr, -⟩
    · exact hinv
    · intro hh
      rw [hr]
      have hpd2 : pd.isHeroLocked.getD false = false := hpd
      simp only [List.countP_append, List.countP_cons, List.countP_nil, hp,
        locksHero, hpd2, Bool.false_and,
        if_neg (by simp : ¬(false = true))]
      have := hinv hh
      simp only [locksHero] at this
      omega
  | removePlayer playerId now h =>
    obtain ⟨pre, leaving, post, hsplit, hcase⟩ := removePlayerFromRoom_some h
    obtain ⟨hl, -, -⟩ := splitFirst_eq_some hsplit
    have hrest : heroLockAtMostOne (pre ++ post) := by
      intro hh
      have := hinv hh
      rw [hl] at this
      simp only [List.countP_append, List.countP_cons] at this ⊢
      omega
    rcases hcase with ⟨-, rfl⟩ | ⟨q, qs, hqs, -, rfl⟩ | ⟨q, qs, hqs, -, rfl⟩
    · intro hh; simp
    · intro hh
      have := hrest hh
      rw [hqs] at this
      simp only [List.countP_cons] at this ⊢
      have hsame : locksHero hh { q with isHost := true } = locksHero hh q := rfl
      rw [hsame]
      omega
    · intro hh
      have := hrest hh
      rw [hqs] at this
      exact this
  | setReady playerId ready now h =>
    obtain ⟨pre, player, post, hsplit, -, rfl⟩ := updatePlayerReady_some h
    obtain ⟨hl, -, -⟩ := splitFirst_eq_some hsplit
    intro hh
    have := hinv hh
    rw [hl] at this
    have hsame : locksHero hh { player with ready := ready }
        = locksHero hh player := rfl
    calc (pre ++ { player with ready := ready } :: post).countP (locksHero hh)
        = (pre ++ player :: post).countP (locksHero hh) :=
          countP_locksHero_mid pre post player _ hh hsame.symm
      _ ≤ 1 := this
  | setHeroLock playerId isLocked heroId now h =>
    obtain ⟨pre, player, post, hsplit, htaken, rfl⟩ :=
      setPlayerHeroLockStatus_some h
    obtain ⟨hl, -, -⟩ := splitFirst_eq_some hsplit
    intro hh
    have horig := hinv hh
    rw [hl] at horig
    simp only [List.countP_append, List.countP_cons] at horig ⊢
    set updated : Player := { player with
      isHeroLocked := isLocked,
      selectedHeroId := if isLocked then heroId else none } with hupd
    by_cases hlk : locksHero hh updated = true
    · have hiso : isLocked = true ∧ heroId = some hh := by
        simp only [hupd, locksHero, Bool.and_eq_true, beq_iff_eq] at hlk
        rcases hlk with ⟨h1, h2⟩
        refine ⟨h1, ?_⟩
        rw [h1] at h2; simpa using h2
      have hnone : ((pre ++ post).any fun q =>
          q.isHeroLocked && q.selectedHeroId == heroId) = false := by
        rcases hiso with ⟨h1, h2⟩
        rw [h1] at htaken
        rw [h2] at htaken ⊢
        simpa using htaken
      have hzero : (pre ++ post).countP (locksHero hh) = 0 := by
        rw [List.countP_eq_zero]
        intro q hq
        have hq2 := List.any_eq_false.mp hnone q hq
        rw [hiso.2] at hq2
        simpa [locksHero] using hq2
      rw [List.countP_append] at hzero
      simp only [hlk, if_true]
      omega
    · simp only [Bool.not_eq_true] at hlk
      simp only [hlk, if_neg (by simp : ¬(false = true))]
      split at horig <;> omega
  | update upd now h =>
    rw [updateRoom] at h
    simp only [Option.some.injEq] at h
    rw [← h]; exact hinv
  | start gs hasGS now h =>
    obtain ⟨-, -, -, rfl, -⟩ := startGame_some h
    exact hinv
  | close now h =>
    obtain ⟨-, rfl⟩ := closeRoom_some h
    exact hinv
  | endOfGame hasGS now h =>
    obtain ⟨-, -, rfl⟩ := endGame_some h
    exact hinv


theorem heroLockAtMostOne_created {options : CreateOptions} {roomId : String}
    {now : Nat} {r : Room} (h : createRoom options roomId now = some r) :
    heroLockAtMostOne r.players := by
  rw [createRoom] at h
  split at h
  · exact absurd h (by simp)
  · simp only [Option.some.injEq] at h
    rw [← h]
    intro hh
    simp [locksHero, List.countP_cons]


/-! ### Capacity invariant -/

theorem capacity_preserved {r r2 : Room} (step : RoomStep r r2)
    (hmono : r.maxPlayers ≤ r2.maxPlayers)
    (hinv : r.players.length ≤ r.maxPlayers) :
    r2.players.length ≤ r2.maxPlayers := by
  have hlen : r2.players.length ≤ r.players.length ∨
      (r2.players.length = r.players.length + 1 ∧
       r.players.length < r.maxPlayers) := by
    cases step with
    | addPlayer pid pd now h =>
      obtain ⟨-, hlt, hcase⟩ := addPlayerToRoom_ok h
      rcases hcase with ⟨rfl, -, -⟩ | ⟨-, rfl, -⟩
      · exact Or.inl le_rfl
      · exact Or.inr ⟨by simp, hlt⟩
    | removePlayer pid now h =>
      obtain ⟨pre, leaving, post, hsplit, hcase⟩ := removePlayerFromRoom_some h
      obtain ⟨hl, -, -⟩ := splitFirst_eq_some hsplit
      have hlen0 : r.players.length = pre.length + post.length + 1 := by
        rw [hl]; simp only [List.length_append, List.length_cons]; omega
      rcases hcase with ⟨hnil, rfl⟩ | ⟨q, qs, hqs, -, rfl⟩ | ⟨q, qs, hqs, -, rfl⟩ <;>
        refine Or.inl ?_
      · simp only [List.length_nil]; omega
      · have : pre.length + post.length = qs.length + 1 := by
          have := congrArg List.length hqs; simpa using this
        simp only [List.length_cons]; omega
      · have : pre.length + post.length = qs.length + 1 := by
          have := congrArg List.length hqs; simpa using this
        simp only [List.length_cons]; omega
    | setReady pid ready now h =>
      obtain ⟨pre, player, post, hsplit, -, rfl⟩ := updatePlayerReady_some h
      obtain ⟨hl, -, -⟩ := splitFirst_eq_some hsplit
      refine Or.inl ?_
      rw [hl]; simp
    | setHeroLock pid isLocked heroId now h =>
      obtain ⟨pre, player, post, hsplit, -, rfl⟩ := setPlayerHeroLockStatus_some h
      obtain ⟨hl, -, -⟩ := splitFirst_eq_some hsplit
      refine Or.inl ?_
      rw [hl]; simp
    | update upd now h =>
      rw [updateRoom] at h
      simp only [Option.some.injEq] at h
      rw [← h]; exact Or.inl le_rfl
    | start gs hasGS now h =>
      obtain ⟨-, -, -, rfl, -⟩ := startGame_some h
      exact Or.inl le_rfl
    | close now h =>
      obtain ⟨-, rfl⟩ := closeRoom_some h
      exact Or.inl le_rfl
    | endOfGame hasGS now h =>
      obtain ⟨-, -, rfl⟩ := endGame_some h
      exact Or.inl le_rfl
  rcases hlen with hle | ⟨heq, hlt⟩
  · omega
  · omega

theorem capacity_reachable {r0 r : Room}
    (h : Relation.ReflTransGen CapMonoStep r0 r)
    (h0 : r0.players.length ≤ r0.maxPlayers) :
    r.players.length ≤ r.maxPlayers := by
  induction h with
  | refl => exact h0
  | tail _ step ih => exact capacity_preserved step.1 step.2 ih

/-- `splitFirst` on a list whose prefix fails the predicate and whose next
element satisfies it. -/
theorem splitFirst_append {pred : α → Bool} {pre : List α} (post : List α)
    {y : α} (hpre : ∀ x ∈ pre, pred x = false) (hy : pred y = true) :
    splitFirst pred (pre ++ y :: post) = some (pre, y, post) := by
  induction pre with
  | nil => simp [splitFirst, hy]
  | cons a as ih =>
    have ha : pred a = false := hpre a (by simp)
    have hrec := ih fun x hx => hpre x (List.mem_cons_of_mem _ hx)
    simp [splitFirst, ha, hrec]

/-! ## HTTP start-game handler (roomHandlers.js `handleStartGame`, line 270) -/

theorem heroLockAtMostOne_reachable {r0 r : Room} (h : CleanReachable r0 r)
    (h0 : heroLockAtMostOne r0.players) : heroLockAtMostOne r.players := by
  induction h with
  | refl => exact h0
  | tail _ step ih => exact heroLockAtMostOne_preserved step ih

/-! ## Claim theorems -/

/-- C1 (amended): along every chain of roomManager operations from
`createRoom` whose join payloads do not inject a hero lock through the
`...playerData` spread — the discipline of the in-repo callers other than the
raw HTTP join handler — each hero id is locked by at most one member at every
reached state; the unrestricted invariant is false, because the spread lets a
join payload carry `isHeroLocked`/`selectedHeroId` (see the counterexample).
And `setPlayerHeroLockStatus(roomId, userId, true, heroId)` returns null
(writing nothing to the store) whenever some other member already holds
`heroId` locked. -/
theorem claim_C1 :
    (∀ (options : CreateOptions) (roomId : String) (now : Nat) (r0 r : Room),
      createRoom options roomId now = some r0 → CleanReachable r0 r →
      heroLockAtMostOne r.players) ∧
    (∀ (r : Room) (playerId heroId : String) (now : Nat),
      (∃ q ∈ r.players, q.openId ≠ playerId ∧ q.isHeroLocked = true ∧
        q.selectedHeroId = some heroId) →
      setPlayerHeroLockStatus (some r) playerId true (some heroId) now
        = none) := by
  constructor
  · intro options roomId now r0 r hc hr
    exact heroLockAtMostOne_reachable hr (heroLockAtMostOne_created hc)
  · rintro r playerId heroId now ⟨q, hq, hne, hlk, hsel⟩
    cases hsplit : splitFirst (fun p => p.openId == playerId) r.players with
    | none => rw [setPlayerHeroLockStatus, hsplit]
    | some v =>
      obtain ⟨pre, player, post⟩ := v
      obtain ⟨hl, hy, -⟩ := splitFirst_eq_some hsplit
      have hqmem : q ∈ pre ++ post := by
        rw [hl] at hq
        rcases List.mem_append.mp hq with h1 | h2
        · exact List.mem_append.mpr (Or.inl h1)
        · rcases List.mem_cons.mp h2 with rfl | h3
          · exact absurd (by simpa using hy) hne
          · exact List.mem_append.mpr (Or.inr h3)
      apply setPlayerHeroLockStatus_taken hsplit (by simp)
      refine List.any_eq_true.mpr ⟨q, hqmem, ?_⟩
      simp [hlk, hsel]

/-- Counterexample to C1 as stated: from the freshly created room `roomC1c`,
bob locks "fox", and then a join whose payload injects
`{isHeroLocked: true, selectedHeroId: "fox"}` through the `...playerData`
spread (forwarded raw from `req.body.playerData` by the HTTP join handler)
reaches — via manager operations alone — a state where two members hold
"fox" locked. -/
theorem claim_C1_counterexample :
    createRoom ⟨"lobby", "bob", "Bob", 2, 3600, "default"⟩ "r1" 0
      = some roomC1c ∧
    RoomReachable roomC1c roomC1inj ∧
    ¬ heroLockAtMostOne roomC1inj.players := by
  refine ⟨by decide, ?_, ?_⟩
  · have s1 : RoomStep roomC1c roomC1mid :=
      RoomStep.setHeroLock "bob" true (some "fox") 1
        (show setPlayerHeroLockStatus (some roomC1c) "bob" true (some "fox") 1
            = some roomC1mid by decide)
    have s2 : RoomStep roomC1mid roomC1inj :=
      RoomStep.addPlayer "mallory" pdC1inj 2
        (show addPlayerToRoom false (some roomC1mid) "mallory" pdC1inj 2
            = .okResult roomC1inj playerC1inj by decide)
    exact Relation.ReflTransGen.head s1 (Relation.ReflTransGen.single s2)
  · intro hall
    exact absurd (hall "fox") (by decide)

/-- Witness for C1 at concrete inputs: the invariant holds for a freshly
created room, and alice's attempt to lock "fox" — already held by bob —
fails. -/
theorem claim_C1_witness :
    heroLockAtMostOne roomC1c.players ∧
    setPlayerHeroLockStatus (some roomC1w) "alice" true (some "fox") 5
      = none :=
  ⟨claim_C1.1 ⟨"lobby", "bob", "Bob", 2, 3600, "default"⟩ "r1" 0 roomC1c
      roomC1c (by decide) Relation.ReflTransGen.refl,
   claim_C1.2 roomC1w "alice" "fox" 5 (by decide)⟩

/-- C10: `updateRoom` keeps `roomId`, `hostId`, `players`, `createdAt` and
`status` unchanged, merges only defined values of the other fields,
refreshes `updatedAt`, and returns null for a missing room. -/
theorem claim_C10 :
    (∀ (r : Room) (upd : UpdateData) (now : Nat) (r2 : Room),
      updateRoom (some r) upd now = some r2 →
      r2.roomId = r.roomId ∧ r2.hostId = r.hostId ∧ r2.players = r.players ∧
      r2.createdAt = r.createdAt ∧ r2.status = r.status ∧
      r2.updatedAt = now ∧
      r2.name = upd.name.getD r.name ∧
      r2.maxPlayers = upd.maxPlayers.getD r.maxPlayers ∧
      r2.timeLimit = upd.timeLimit.getD r.timeLimit ∧
      r2.mapId = upd.mapId.getD r.mapId) ∧
    (∀ (upd : UpdateData) (now : Nat), updateRoom none upd now = none) := by
  constructor
  · intro r upd now r2 h
    rw [updateRoom] at h
    simp only [Option.some.injEq] at h
    subst h
    exact ⟨rfl, rfl, rfl, rfl, rfl, rfl, rfl, rfl, rfl, rfl⟩
  · intro upd now; rfl

/-- Witness for C10: updating with a `status` change request and a `name`
change leaves `status` (and the other protected fields) unchanged and merges
`name`. -/
theorem claim_C10_witness :
    roomC10b.roomId = roomC10.roomId ∧ roomC10b.hostId = roomC10.hostId ∧
    roomC10b.players = roomC10.players ∧
    roomC10b.createdAt = roomC10.createdAt ∧
    roomC10b.status = roomC10.status ∧ roomC10b.updatedAt = 9 ∧
    roomC10b.name = updC10.name.getD roomC10.name ∧
    roomC10b.maxPlayers = updC10.maxPlayers.getD roomC10.maxPlayers ∧
    roomC10b.timeLimit = updC10.timeLimit.getD roomC10.timeLimit ∧
    roomC10b.mapId = updC10.mapId.getD roomC10.mapId :=
  claim_C10.1 roomC10 updC10 9 roomC10b (by decide)

/-- C6: removing the host while members remain transfers `hostId` and the
`isHost` flag to the earliest remaining member in join order; removing the
last member sets the room status to `ended`. -/
theorem claim_C6 :
    ∀ (r r2 : Room) (playerId : String) (now : Nat) (pre post : List Player)
      (leaving : Player),
      removePlayerFromRoom (some r) playerId now = some r2 →
      splitFirst (fun q => q.openId == playerId) r.players
        = some (pre, leaving, post) →
      (pre ++ post = [] → r2.status = "ended" ∧ r2.players = []) ∧
      (∀ q qs, pre ++ post = q :: qs → leaving.isHost = true →
        r2.hostId = q.openId ∧
        r2.players = { q with isHost := true } :: qs) := by
  intro r r2 playerId now pre post leaving h hsplit
  obtain ⟨pre2, leaving2, post2, hsplit2, hcase⟩ := removePlayerFromRoom_some h
  rw [hsplit] at hsplit2
  simp only [Option.some.injEq, Prod.mk.injEq] at hsplit2
  obtain ⟨h1, h2, h3⟩ := hsplit2
  subst h1; subst h2; subst h3
  constructor
  · intro hnil
    rcases hcase with ⟨-, rfl⟩ | ⟨q, qs, hqs, -, rfl⟩ | ⟨q, qs, hqs, -, rfl⟩
    · exact ⟨rfl, rfl⟩
    · rw [hnil] at hqs; exact absurd hqs (by simp)
    · rw [hnil] at hqs; exact absurd hqs (by simp)
  · intro q qs hqs hhost
    rcases hcase with ⟨hnil, rfl⟩ | ⟨q2, qs2, hqs2, -, rfl⟩ | ⟨q2, qs2, hqs2, hnh, rfl⟩
    · rw [hnil] at hqs; exact absurd hqs (by simp)
    · rw [hqs] at hqs2
      simp only [List.cons.injEq] at hqs2
      obtain ⟨rfl, rfl⟩ := hqs2
      exact ⟨rfl, rfl⟩
    · rw [hhost] at hnh; exact absurd hnh (by simp)

/-- Witness for C6: host "H" leaves the 2-member room `roomC6w`; the
remaining member "M" becomes host (id and flag). -/
theorem claim_C6_witness :
    roomC6res.hostId = playerC6M.openId ∧
    roomC6res.players = { playerC6M with isHost := true } :: [] :=
  (claim_C6 roomC6w roomC6res "H" 7 [] [playerC6M] playerC6H
    (by decide) (by decide)).2 playerC6M [] rfl rfl

/-- Successful `updatePlayerReady` on a waiting room, in closed form. -/
theorem updatePlayerReady_succeeds {r : Room} {playerId : String}
    {ready : Bool} {now : Nat} {pre post : List Player} {player : Player}
    (hst : r.status = "waiting")
    (hsplit : splitFirst (fun q => q.openId == playerId) r.players
      = some (pre, player, post)) :
    updatePlayerReady (some r) playerId ready now
      = some { r with
          players := pre ++ { player with ready := ready } :: post,
          updatedAt := now } := by
  rw [updatePlayerReady]
  simp only [hsplit]
  rw [if_neg (by simp [hst])]

/-- C7 (amended): re-joining an already-present member returns the unchanged
room and that member's existing entry with no duplicate and no error,
provided the room is `waiting` and below capacity — the room-full check runs
before the membership check, so a re-join against a full room errors instead;
ready-toggling twice with the same value leaves the member list identical to
toggling once, with no error. -/
theorem claim_C7 :
    (∀ (r : Room) (playerId : String) (pd : PlayerData) (now : Nat)
       (pre post : List Player) (p : Player),
      r.status = "waiting" → r.players.length < r.maxPlayers →
      splitFirst (fun q => q.openId == playerId) r.players
        = some (pre, p, post) →
      addPlayerToRoom false (some r) playerId pd now = .okResult r p) ∧
    (∀ (r r1 : Room) (playerId : String) (ready : Bool) (t1 t2 : Nat),
      updatePlayerReady (some r) playerId ready t1 = some r1 →
      ∃ r2, updatePlayerReady (some r1) playerId ready t2 = some r2 ∧
        r2.players = r1.players) := by
  constructor
  · intro r playerId pd now pre post p hst hlt hsplit
    rw [addPlayerToRoom]
    simp only [hsplit]
    rw [if_neg (by simp), if_neg (by simp [hst]), if_neg (by omega)]
  · intro r r1 playerId ready t1 t2 h1
    obtain ⟨pre, player, post, hsplit, hst, rfl⟩ := updatePlayerReady_some h1
    obtain ⟨hl, hy, hpre⟩ := splitFirst_eq_some hsplit
    have hsplit2 : splitFirst (fun q => q.openId == playerId)
        (pre ++ { player with ready := ready } :: post)
        = some (pre, { player with ready := ready }, post) :=
      splitFirst_append post hpre (by simpa using hy)
    exact ⟨_, updatePlayerReady_succeeds hst hsplit2, rfl⟩

/-- Counterexample to C7 as stated: "M" is already a member of the full
waiting room `roomC7x`, yet re-joining yields the ROOM_FULL error rather
than the current room and M's entry. -/
theorem claim_C7_counterexample :
    (∃ q ∈ roomC7x.players, q.openId = "M") ∧
    addPlayerToRoom false (some roomC7x) "M"
      { nickname := none, isBot := some false } 3 = .errResult "ROOM_FULL" :=
  ⟨by decide, by decide⟩

/-- Witness for C7 at concrete inputs: re-join of "M" into the non-full
room `roomC7w`, and a repeated ready-toggle. -/
theorem claim_C7_witness :
    addPlayerToRoom false (some roomC7w) "M"
      { nickname := none, isBot := some false } 9 = .okResult roomC7w playerC6M ∧
    ∃ r2, updatePlayerReady (some { roomC7w with
        players := [playerC6H, { playerC6M with ready := true }],
        updatedAt := 4 }) "M" true 5 = some r2 ∧
      r2.players = ({ roomC7w with
        players := [playerC6H, { playerC6M with ready := true }],
        updatedAt := 4 } : Room).players :=
  ⟨claim_C7.1 roomC7w "M" { nickname := none, isBot := some false } 9
      [playerC6H] [] playerC6M rfl (by decide) (by decide),
   claim_C7.2 roomC7w _ "M" true 4 5 (by decide)⟩

/-- C5 (amended): `createRoom` clamps capacity into [2,10] and seeds exactly
one member; a join against a full waiting room fails with ROOM_FULL, and a
join against any full room never returns a success result; the
count ≤ capacity bound holds along every chain of manager operations that
never lowers `maxPlayers`.  (`updateRoom` applies no clamp and can lower
`maxPlayers` below the current member count, violating the bound — see the
counterexample.) -/
theorem claim_C5 :
    (∀ (options : CreateOptions) (roomId : String) (now : Nat) (r : Room),
      createRoom options roomId now = some r →
      2 ≤ r.maxPlayers ∧ r.maxPlayers ≤ 10 ∧ r.players.length = 1) ∧
    (∀ (r : Room) (playerId : String) (pd : PlayerData) (now : Nat),
      r.maxPlayers ≤ r.players.length →
      (r.status = "waiting" →
        addPlayerToRoom false (some r) playerId pd now
          = .errResult "ROOM_FULL") ∧
      (∀ (r2 : Room) (p : Player),
        addPlayerToRoom false (some r) playerId pd now ≠ .okResult r2 p)) ∧
    (∀ (r0 r : Room), Relation.ReflTransGen CapMonoStep r0 r →
      r0.players.length ≤ r0.maxPlayers →
      r.players.length ≤ r.maxPlayers) := by
  refine ⟨?_, ?_, ?_⟩
  · intro options roomId now r h
    rw [createRoom] at h
    split at h
    · exact absurd h (by simp)
    · simp only [Option.some.injEq] at h
      subst h
      exact ⟨le_min (le_max_left 2 _) (by norm_num), min_le_right _ _, rfl⟩
  · intro r playerId pd now hfull
    constructor
    · intro hst
      rw [addPlayerToRoom]
      rw [if_neg (by simp)]
      simp only
      rw [if_neg (by simp [hst]), if_pos hfull]
    · intro r2 p hcon
      obtain ⟨-, hlt, -⟩ := addPlayerToRoom_ok hcon
      omega
  · intro r0 r h h0
    exact capacity_reachable h h0

/-- Counterexample to C5 as stated: from a freshly created capacity-2 room, a
join followed by an `updateRoom` that lowers `maxPlayers` to 1 reaches a
state whose member count (2) exceeds its configured capacity (1). -/
theorem claim_C5_counterexample :
    createRoom ⟨"n", "H", "Host", 2, 3600, "default"⟩ "r5" 0 = some roomC5a ∧
    Relation.ReflTransGen RoomStep roomC5a roomC5c ∧
    roomC5c.maxPlayers < roomC5c.players.length := by
  refine ⟨by decide, ?_, by decide⟩
  have s1 : RoomStep roomC5a roomC5b :=
    RoomStep.addPlayer "B" { nickname := none, isBot := some false } 1
      (show addPlayerToRoom false (some roomC5a) "B"
          { nickname := none, isBot := some false } 1
          = .okResult roomC5b playerC5B by decide)
  have s2 : RoomStep roomC5b roomC5c :=
    RoomStep.update { maxPlayers := some 1 } 2
      (show updateRoom (some roomC5b) { maxPlayers := some 1 } 2
          = some roomC5c by decide)
  exact Relation.ReflTransGen.head s1 (Relation.ReflTransGen.single s2)

/-- Witness for C5 at concrete inputs: the clamp on a fresh room, the
ROOM_FULL failure on the full room `roomC7x`, and the bound at the trivial
chain. -/
theorem claim_C5_witness :
    (2 ≤ roomC1c.maxPlayers ∧ roomC1c.maxPlayers ≤ 10 ∧
      roomC1c.players.length = 1) ∧
    addPlayerToRoom false (some roomC7x) "Z"
      { nickname := none, isBot := some false } 9 = .errResult "ROOM_FULL" ∧
    roomC7x.players.length ≤ roomC7x.maxPlayers :=
  ⟨claim_C5.1 ⟨"lobby", "bob", "Bob", 2, 3600, "default"⟩ "r1" 0 roomC1c
      (by decide),
   (claim_C5.2.1 roomC7x "Z" { nickname := none, isBot := some false } 9
      (by decide)).1 rfl,
   claim_C5.2.2 roomC7x roomC7x Relation.ReflTransGen.refl (by decide)⟩

/-- C4 (amended): `roomManager.startGame` succeeds iff the room exists, is in
status `waiting`, has at least one member, and has no pre-existing game
state — it checks neither readiness nor capacity, returning null and writing
nothing otherwise; the all-non-host-ready and exact-capacity checks are
enforced by the HTTP handler `handleStartGame` before it calls `startGame`. -/
theorem claim_C4 :
    (∀ (roomOpt : Option Room) (hasGS : Bool) (now : Nat),
      (startGame roomOpt hasGS now).isSome ↔
        ∃ room, roomOpt = some room ∧ room.status = "waiting" ∧
          1 ≤ room.players.length ∧ hasGS = false) ∧
    (∀ (room : Room) (hasGS : Bool) (now : Nat) (r2 : Room) (gs : GameState),
      startGame (some room) hasGS now = some (r2, gs) →
      r2 = { room with status := "CHARACTER_SELECT",
                       gameStartTime := some now, updatedAt := now } ∧
      gs.playerStates = room.players.map fun p =>
        (p.openId, { ready := false, position := 0, items := [], score := 0,
                     isHeroLocked := p.isHeroLocked,
                     selectedHeroId := p.selectedHeroId })) ∧
    (∀ (room : Room) (userId : String) (hasGS : Bool) (now : Nat)
       (out : Option (Room × GameState)),
      handleStartGame (some room) userId hasGS now = (.httpOk, out) →
      room.players.length = room.maxPlayers ∧
      (∀ p ∈ room.players, p.openId ≠ room.hostId → p.ready = true) ∧
      room.hostId = userId ∧ room.status = "waiting") := by
  refine ⟨?_, ?_, ?_⟩
  · intro roomOpt hasGS now
    cases roomOpt with
    | none => simp [startGame]
    | some room =>
      constructor
      · intro hs
        rw [startGame] at hs
        by_cases hst : room.status = "waiting"
        · by_cases hlen : room.players.length < 1
          · simp [hst, hlen] at hs
          · cases hasGS
            · exact ⟨room, rfl, hst, by omega, rfl⟩
            · simp [hst, hlen] at hs
        · simp [hst] at hs
      · rintro ⟨room2, heq, hst, hlen, rfl⟩
        obtain rfl : room2 = room := by
          simpa using heq.symm
        rw [startGame]
        simp [hst, Nat.not_lt.mpr hlen]
  · intro room hasGS now r2 gs h
    obtain ⟨-, -, -, hr2, hgs⟩ := startGame_some h
    subst hgs
    exact ⟨hr2, rfl⟩
  · intro room userId hasGS now out h
    rw [handleStartGame] at h
    split_ifs at h with h1 h2 h3 h4
    · exact absurd h (by simp)
    · exact absurd h (by simp)
    · exact absurd h (by simp)
    · exact absurd h (by simp)
    · refine ⟨not_ne_iff.mp h3, ?_, not_ne_iff.mp h1, not_ne_iff.mp h2⟩
      intro p hp hne
      have h4b : ∀ x ∈ room.players, ¬x.openId = room.hostId →
          x.ready = true := by
        simpa using h4
      exact h4b p hp hne

/-- Counterexample to C4 as stated: `startGame` succeeds on a waiting room
with a single not-ready member and unmet capacity (1 of 4). -/
theorem claim_C4_counterexample :
    (startGame (some roomC4x) false 9).isSome = true ∧
    roomC4x.players.length ≠ roomC4x.maxPlayers ∧
    ¬ (∀ p ∈ roomC4x.players, p.ready = true) := by
  refine ⟨by decide, by decide, by decide⟩

/-- Witness for C4 at concrete inputs: the success characterisation on
`roomC4x`, the room written by a successful start, and the handler checks on
the full, ready room `roomC4w`. -/
theorem claim_C4_witness :
    (startGame (some roomC4x) false 9).isSome ∧
    roomC4xStarted.status = "CHARACTER_SELECT" ∧
    (roomC4w.players.length = roomC4w.maxPlayers ∧
      (∀ p ∈ roomC4w.players, p.openId ≠ roomC4w.hostId → p.ready = true) ∧
      roomC4w.hostId = "H" ∧ roomC4w.status = "waiting") := by
  refine ⟨?_, ?_, ?_⟩
  · exact (claim_C4.1 (some roomC4x) false 9).mpr
      ⟨roomC4x, rfl, rfl, by decide, rfl⟩
  · have := claim_C4.2.1 roomC4x false 9 roomC4xStarted gsC4x rfl
    rw [this.1]
  · exact claim_C4.2.2 roomC4w "H" false 9 (some (roomC4wStarted, gsC4w))
      rfl

/-- C3 (code bug): after M's lock leaves every member of `roomC3x` locked,
the handler broadcasts ACTUAL_GAME_START carrying the final roster and each
member's hero, but the attempted transition passes `status` through
`updateRoom`, whose disallowed-fields filter silently drops it: the stored
room keeps status CHARACTER_SELECT instead of becoming `playing` (the code's
own comment at wsApp.js:566 says it updates the status to 'playing').  No
map-generator or match-state call occurs on this path. -/
theorem claim_C3 :
    ((handleLockHero (some roomC3x) "M" true (some "prometheus")
        (fun _ => 0) 7).1.map Room.status = some "CHARACTER_SELECT") ∧
    (WsEvent.actualGameStart "r3"
        [("H", some "fox"), ("M", some "prometheus")] (some 7)
      ∈ (handleLockHero (some roomC3x) "M" true (some "prometheus")
          (fun _ => 0) 7).2) ∧
    ((handleLockHero (some roomC3x) "M" true (some "prometheus")
        (fun _ => 0) 7).1.map Room.status ≠ some "playing") := by
  refine ⟨by decide, by decide, by decide⟩

/-- C8 (amended): registering a second live connection leaves exactly the new
connection registered for the identity (other identities untouched); the old
transport is first notified, its forced close is scheduled with a 100 ms
grace period before the new connection is admitted, and that close is
realized only after the admission (the `setTimeout` callback runs after the
synchronous handler), not before it. -/
theorem claim_C8 :
    ∀ (clients : ClientMap) (isOpen : Nat → Bool) (userId : String)
      (oldConn newConn : Nat),
      clients userId = some oldConn → isOpen oldConn = true →
      ((registerConnection clients isOpen userId newConn).1 userId
          = some newConn) ∧
      (∀ u, u ≠ userId →
        (registerConnection clients isOpen userId newConn).1 u = clients u) ∧
      ((registerConnection clients isOpen userId newConn).2
        = [ConnEffect.sendReplaced oldConn,
           ConnEffect.scheduleCloseOld oldConn 100,
           ConnEffect.admitNew userId newConn]) ∧
      (∀ tc ta,
        (tc, RealizedAction.actCloseOld oldConn)
          ∈ realizedTimeline
              (registerConnection clients isOpen userId newConn).2 →
        (ta, RealizedAction.actAdmitNew userId newConn)
          ∈ realizedTimeline
              (registerConnection clients isOpen userId newConn).2 →
        ta < tc) := by
  intro clients isOpen userId oldConn newConn hold hopen
  have heff : (registerConnection clients isOpen userId newConn).2
      = [ConnEffect.sendReplaced oldConn,
         ConnEffect.scheduleCloseOld oldConn 100,
         ConnEffect.admitNew userId newConn] := by
    rw [registerConnection]
    simp [hold, hopen]
  refine ⟨?_, ?_, heff, ?_⟩
  · rw [registerConnection]
    simp
  · intro u hu
    rw [registerConnection]
    simp [hu]
  · intro tc ta hc ha
    rw [heff] at hc ha
    simp only [realizedTimeline, List.enum, List.enumFrom, List.map,
      List.mem_cons, List.mem_singleton, Prod.mk.injEq, List.length_cons,
      List.length_nil, List.not_mem_nil, or_false] at hc ha
    rcases hc with ⟨-, hbad⟩ | ⟨htc, -⟩ | ⟨-, hbad⟩
    · exact absurd hbad (by simp)
    · rcases ha with ⟨-, hbad⟩ | ⟨-, hbad⟩ | ⟨hta, -⟩
      · exact absurd hbad (by simp)
      · exact absurd hbad (by simp)
      · omega
    · exact absurd hbad (by simp)

/-- Counterexample to C8 as stated: for user "u" with live connection 1
superseded by connection 2, the realized forced close of connection 1 (at
time 103, after the 100 ms grace that starts when the synchronous handler
ends) happens strictly after the admission of connection 2 (at time 2) —
not before it. -/
theorem claim_C8_counterexample :
    ((registerConnection clientsC8 (fun _ => true) "u" 2).2
      = [ConnEffect.sendReplaced 1, ConnEffect.scheduleCloseOld 1 100,
         ConnEffect.admitNew "u" 2]) ∧
    ((2, RealizedAction.actAdmitNew "u" 2)
      ∈ realizedTimeline
          (registerConnection clientsC8 (fun _ => true) "u" 2).2) ∧
    (∀ p ∈ realizedTimeline
        (registerConnection clientsC8 (fun _ => true) "u" 2).2,
      p.2 = RealizedAction.actCloseOld 1 → 2 < p.1) := by
  refine ⟨by decide, by decide, by decide⟩

/-- Witness for C8 at concrete inputs: user "u" with open connection 1
superseded by connection 2. -/
theorem claim_C8_witness :
    ((registerConnection clientsC8 (fun _ => true) "u" 2).1 "u" = some 2) ∧
    (∀ u, u ≠ "u" →
      (registerConnection clientsC8 (fun _ => true) "u" 2).1 u
        = clientsC8 u) ∧
    ((registerConnection clientsC8 (fun _ => true) "u" 2).2
      = [ConnEffect.sendReplaced 1, ConnEffect.scheduleCloseOld 1 100,
         ConnEffect.admitNew "u" 2]) ∧
    (∀ tc ta,
      (tc, RealizedAction.actCloseOld 1)
        ∈ realizedTimeline
            (registerConnection clientsC8 (fun _ => true) "u" 2).2 →
      (ta, RealizedAction.actAdmitNew "u" 2)
        ∈ realizedTimeline
            (registerConnection clientsC8 (fun _ => true) "u" 2).2 →
      ta < tc) :=
  claim_C8 clientsC8 (fun _ => true) "u" 1 2 (by decide) rfl

/-! ### Bot auto-lock (C9) -/

/-- The locked-character list is no longer than the number of locked
members. -/
theorem lockedChars_length_le (l : List Player) :
    (l.filterMap fun p =>
      if p.isHeroLocked then p.selectedHeroId else none).length
      ≤ l.countP fun p => p.isHeroLocked := by
  induction l with
  | nil => simp
  | cons p ps ih =>
    by_cases hp : p.isHeroLocked
    · cases hsel : p.selectedHeroId with
      | none =>
        simp only [List.filterMap_cons, hp, if_true, hsel, List.countP_cons]
        omega
      | some h =>
        simp only [List.filterMap_cons, hp, if_true, hsel, List.countP_cons,
          List.length_cons, hp, decide_eq_true_eq, if_pos rfl]
        omega
    · simp only [List.filterMap_cons, hp, Bool.false_eq_true, if_false,
        List.countP_cons]
      have hz : (if (p.isHeroLocked = true) then 1 else 0) = 0 :=
        if_neg (by simpa using hp)
      omega

/-- If some member is unlocked and the room has at most ten members, the
available-hero list is nonempty. -/
theorem avail_nonempty {room : Room} {e : Player}
    (he : e ∈ room.players) (hlk : e.isHeroLocked = false)
    (hlen : room.players.length ≤ 10) :
    getAvailableHeroIds (some room) ≠ [] := by
  intro hemp
  have hsub : ALL_HERO_IDS ⊆ getLockedCharacters room := by
    intro a ha
    by_contra hna
    have hmem : a ∈ getAvailableHeroIds (some room) := by
      rw [getAvailableHeroIds]
      refine List.mem_filter.mpr ⟨ha, ?_⟩
      simp only [Bool.not_eq_eq_eq_not, Bool.not_true]
      simpa using hna
    rw [hemp] at hmem
    exact List.not_mem_nil a hmem
  have hnd : ALL_HERO_IDS.Nodup := by decide
  have hlen1 : ALL_HERO_IDS.length ≤ (getLockedCharacters room).length :=
    (List.subperm_of_subset hnd hsub).length_le
  have hlen2 := lockedChars_length_le room.players
  have hlen3 : room.players.countP (fun p => p.isHeroLocked)
      < room.players.length := by
    have hsplitlen := List.length_eq_countP_add_countP
      (fun p => p.isHeroLocked) room.players
    have hpos : 0 < room.players.countP
        (fun p => decide ¬p.isHeroLocked = true) :=
      List.countP_pos.mpr ⟨e, he, by simp [hlk]⟩
    omega
  have hAll : ALL_HERO_IDS.length = 10 := by decide
  rw [getLockedCharacters] at hlen1
  omega

/-- `splitFirst` on the players of a room with distinct member ids locates
exactly the member with the sought id. -/
theorem splitFirst_openId_nodup {players : List Player} {id : String}
    {e : Player} (hnd : (players.map Player.openId).Nodup)
    (he : e ∈ players) (hid : e.openId = id) :
    ∃ pre post,
      splitFirst (fun p => p.openId == id) players = some (pre, e, post) ∧
      players = pre ++ e :: post := by
  induction players with
  | nil => cases he
  | cons p ps ih =>
    rw [List.map_cons, List.nodup_cons] at hnd
    by_cases hp : (p.openId == id) = true
    · have hpe : e = p := by
        rcases List.mem_cons.mp he with rfl | hmm
        · rfl
        · exfalso
          have h1 : e.openId ∈ ps.map Player.openId :=
            List.mem_map_of_mem _ hmm
          have h2 : p.openId = id := by simpa using hp
          rw [hid, ← h2] at h1
          exact hnd.1 h1
      subst hpe
      exact ⟨[], ps, by simp [splitFirst, hp], rfl⟩
    · have hep : e ∈ ps := by
        rcases List.mem_cons.mp he with rfl | h2
        · exact absurd (by simp [hid]) hp
        · exact h2
      obtain ⟨pre, post, hs, hl⟩ := ih hnd.2 hep
      exact ⟨p :: pre, post, by simp [splitFirst, hp, hs], by simp [hl]⟩

/-- A hero of a locked member is in the locked-character list. -/
theorem mem_lockedChars {room : Room} {q : Player} {c : String}
    (hq : q ∈ room.players) (hlk : q.isHeroLocked = true)
    (hsel : q.selectedHeroId = some c) :
    c ∈ getLockedCharacters room := by
  rw [getLockedCharacters]
  exact List.mem_filterMap.mpr ⟨q, hq, by simp [hlk, hsel]⟩

/-- Locking an unlocked member to a hero from the available list succeeds and
behaves as expected: ids and the other members are untouched, the
locked-character list only grows, and the mutation is a manager step. -/
theorem setLock_of_avail {room : Room} {botId : String} {e : Player}
    {chosen : String} {now : Nat}
    (hnd : (room.players.map Player.openId).Nodup)
    (he : e ∈ room.players) (hid : e.openId = botId)
    (hunlocked : e.isHeroLocked = false)
    (hchosen : chosen ∈ getAvailableHeroIds (some room)) :
    ∃ room2,
      setPlayerHeroLockStatus (some room) botId true (some chosen) now
        = some room2 ∧
      room2.players.map Player.openId = room.players.map Player.openId ∧
      room2.players.length = room.players.length ∧
      (∃ e2 ∈ room2.players, e2.openId = botId ∧ e2.isHeroLocked = true ∧
        e2.selectedHeroId = some chosen) ∧
      (∀ q ∈ room.players, q.openId ≠ botId → q ∈ room2.players) ∧
      (∀ c, c ∈ getLockedCharacters room → c ∈ getLockedCharacters room2) ∧
      LockFreeStep room room2 := by
  obtain ⟨pre, post, hs, hl⟩ := splitFirst_openId_nodup hnd he hid
  have hnotLocked : chosen ∉ getLockedCharacters room := by
    rw [getAvailableHeroIds] at hchosen
    have := (List.mem_filter.mp hchosen).2
    simp only [Bool.not_eq_eq_eq_not, Bool.not_true] at this
    simpa using this
  have htaken : ((true : Bool) && (some chosen).isSome &&
      ((pre ++ post).any fun q =>
        q.isHeroLocked && q.selectedHeroId == some chosen)) = false := by
    simp only [Option.isSome_some, Bool.true_and]
    rw [List.any_eq_false]
    intro q hq
    simp only [Bool.and_eq_true, beq_iff_eq, not_and]
    intro hql hsel
    exact absurd (mem_lockedChars (by rw [hl]; exact
      (List.mem_append.mpr (List.mem_append.mp hq |>.imp id
        (fun h2 => List.mem_cons_of_mem _ h2)))) hql hsel) hnotLocked
  have heq : setPlayerHeroLockStatus (some room) botId true (some chosen) now
      = some { room with
          players := pre ++ { e with isHeroLocked := true,
                                     selectedHeroId := some chosen } :: post,
          updatedAt := now } := by
    rw [setPlayerHeroLockStatus]
    simp only [hs]
    rw [if_neg (by rw [htaken]; simp)]
    simp
  refine ⟨_, heq, ?_, ?_, ?_, ?_, ?_, ?_⟩
  · rw [hl]; simp
  · rw [hl]; simp
  · exact ⟨{ e with isHeroLocked := true, selectedHeroId := some chosen },
      by simp, hid, rfl, rfl⟩
  · intro q hq hqid
    have : q ∈ pre ++ post := by
      rw [hl] at hq
      rcases List.mem_append.mp hq with h1 | h2
      · exact List.mem_append.mpr (Or.inl h1)
      · rcases List.mem_cons.mp h2 with rfl | h3
        · exact absurd hid hqid
        · exact List.mem_append.mpr (Or.inr h3)
    rcases List.mem_append.mp this with h1 | h2
    · exact List.mem_append.mpr (Or.inl h1)
    · exact List.mem_append.mpr (Or.inr (List.mem_cons_of_mem _ h2))
  · intro c hc
    rw [getLockedCharacters] at hc ⊢
    rw [hl] at hc
    simp only [List.filterMap_append, List.filterMap_cons, hunlocked,
      Bool.false_eq_true, if_false, List.mem_append] at hc
    simp only [List.filterMap_append, List.filterMap_cons, if_pos rfl,
      List.mem_append]
    rcases hc with h1 | h2
    · exact Or.inl h1
    · exact Or.inr (List.mem_cons_of_mem _ h2)
  · exact LockFreeStep.setHeroLock botId true (some chosen) now heq

/-- The locked-character list only depends on the member list. -/
theorem lockedChars_congr {r1 r2 : Room} (h : r1.players = r2.players) :
    getLockedCharacters r1 = getLockedCharacters r2 := by
  rw [getLockedCharacters, getLockedCharacters, h]

/-- An available hero is a real hero that nobody currently holds locked. -/
theorem mem_avail {room : Room} {c : String}
    (h : c ∈ getAvailableHeroIds (some room)) :
    c ∈ ALL_HERO_IDS ∧ c ∉ getLockedCharacters room := by
  rw [getAvailableHeroIds] at h
  obtain ⟨h1, h2⟩ := List.mem_filter.mp h
  refine ⟨h1, ?_⟩
  simp only [Bool.not_eq_eq_eq_not, Bool.not_true] at h2
  simpa using h2

/-- Invariants of the bot-locking loop: member ids are preserved, the final
room is reachable by manager steps, locked heroes only accumulate, members
outside the processed bot list survive, and every processed bot (distinct
ids, currently unlocked, ≤ 10 members) ends locked to a real hero that nobody
held when the loop started, with the corresponding PLAYER_HERO_LOCKED
broadcast. -/
theorem lockBotsLoop_spec :
    ∀ (bots : List Player) (room : Room) (draws : Nat → Nat) (k now : Nat),
      (room.players.map Player.openId).Nodup →
      room.players.length ≤ 10 →
      (∀ b ∈ bots, ∃ e ∈ room.players, e.openId = b.openId ∧
        e.isHeroLocked = false) →
      (bots.map Player.openId).Nodup →
      ((lockBotsLoop room bots draws k now).1.players.map Player.openId
          = room.players.map Player.openId) ∧
      Relation.ReflTransGen LockFreeStep room
        (lockBotsLoop room bots draws k now).1 ∧
      (∀ c, c ∈ getLockedCharacters room →
        c ∈ getLockedCharacters (lockBotsLoop room bots draws k now).1) ∧
      (∀ q ∈ room.players, q.openId ∉ bots.map Player.openId →
        q ∈ (lockBotsLoop room bots draws k now).1.players) ∧
      (∀ b ∈ bots, ∃ h, h ∈ ALL_HERO_IDS ∧
        h ∉ getLockedCharacters room ∧
        (∃ e2 ∈ (lockBotsLoop room bots draws k now).1.players,
          e2.openId = b.openId ∧ e2.isHeroLocked = true ∧
          e2.selectedHeroId = some h) ∧
        WsEvent.playerHeroLocked b.openId (some h) true
          ∈ (lockBotsLoop room bots draws k now).2) := by
  intro bots
  induction bots with
  | nil =>
    intro room draws k now hnd hlen hbots hbnd
    refine ⟨rfl, Relation.ReflTransGen.refl, fun c hc => hc,
      fun q hq _ => hq, fun b hb => absurd hb (List.not_mem_nil b)⟩
  | cons bot rest ih =>
    intro room draws k now hnd hlen hbots hbnd
    obtain ⟨e, he, heid, helock⟩ := hbots bot (List.mem_cons_self bot rest)
    have havail : getAvailableHeroIds (some room) ≠ [] :=
      avail_nonempty he helock hlen
    have hlpos : 0 < (getAvailableHeroIds (some room)).length :=
      List.length_pos.mpr havail
    have hemptyF : (getAvailableHeroIds (some room)).isEmpty = false := by
      cases hI : (getAvailableHeroIds (some room)).isEmpty
      · rfl
      · exact absurd (List.isEmpty_iff.mp hI) havail
    set chosen : String := (getAvailableHeroIds (some room)).getD
      (draws k % (getAvailableHeroIds (some room)).length) "" with hchdef
    have hidx : draws k % (getAvailableHeroIds (some room)).length
        < (getAvailableHeroIds (some room)).length := Nat.mod_lt _ hlpos
    have hchosen : chosen ∈ getAvailableHeroIds (some room) := by
      rw [hchdef, List.getD_eq_getElem _ _ hidx]
      exact List.getElem_mem hidx
    obtain ⟨hchALL, hchNotLocked⟩ := mem_avail hchosen
    obtain ⟨room2, heq2, hmap2, hlen2, hentry2, hframe2, hlocksub2, hstep2⟩ :=
      @setLock_of_avail room bot.openId e chosen now hnd he heid helock hchosen
    have hstart : ∃ room3 evs3,
        (if checkAllPlayersLocked (some room2) then
          match updateRoom (some room2)
              { status := some "playing", gameActualStartTime := some now }
              now with
          | some finalRoom =>
            (finalRoom,
             [WsEvent.actualGameStart finalRoom.roomId (roster finalRoom)
                finalRoom.gameActualStartTime])
          | none => (room2, ([] : List WsEvent))
         else (room2, ([] : List WsEvent)))
          = (room3, evs3) ∧
        room3.players = room2.players ∧
        Relation.ReflTransGen LockFreeStep room2 room3 := by
      by_cases hall : checkAllPlayersLocked (some room2)
      · rw [if_pos hall, updateRoom_some]
        exact ⟨_, _, rfl, rfl,
          Relation.ReflTransGen.single (LockFreeStep.update _ _ updateRoom_some)⟩
      · rw [if_neg hall]
        exact ⟨room2, [], rfl, rfl, Relation.ReflTransGen.refl⟩
    obtain ⟨room3, evs3, hstarteq, hpl3, hstep23⟩ := hstart
    have hmain : lockBotsLoop room (bot :: rest) draws k now
        = ((lockBotsLoop room3 rest draws (k + 1) now).1,
           WsEvent.playerHeroLocked bot.openId (some chosen) true
             :: (evs3 ++ (lockBotsLoop room3 rest draws (k + 1) now).2)) := by
      rw [lockBotsLoop]
      simp only [hemptyF, Bool.false_eq_true, if_false, ← hchdef]
      rw [heq2]
      simp only []
      rw [hstarteq]
    have hrestids : bot.openId ∉ rest.map Player.openId ∧
        (rest.map Player.openId).Nodup := by
      rw [List.map_cons, List.nodup_cons] at hbnd
      exact hbnd
    have hnd3 : (room3.players.map Player.openId).Nodup := by
      rw [hpl3, hmap2]; exact hnd
    have hlen3 : room3.players.length ≤ 10 := by
      rw [hpl3, hlen2]; exact hlen
    have hbots3 : ∀ b ∈ rest, ∃ e2 ∈ room3.players, e2.openId = b.openId ∧
        e2.isHeroLocked = false := by
      intro b hb
      obtain ⟨e2, he2, he2id, he2lock⟩ := hbots b (List.mem_cons_of_mem _ hb)
      have hbneq : b.openId ≠ bot.openId := by
        intro hcon
        exact hrestids.1 (hcon ▸ List.mem_map_of_mem Player.openId hb)
      refine ⟨e2, ?_, he2id, he2lock⟩
      rw [hpl3]
      exact hframe2 e2 he2 (by rw [he2id]; exact hbneq)
    obtain ⟨ihmap, ihstep, ihlock, ihframe, ihbots⟩ :=
      ih room3 draws (k + 1) now hnd3 hlen3 hbots3 hrestids.2
    have hlock23 : ∀ c, c ∈ getLockedCharacters room2 →
        c ∈ getLockedCharacters room3 := by
      intro c hc
      rw [lockedChars_congr hpl3]
      exact hc
    rw [hmain]
    refine ⟨?_, ?_, ?_, ?_, ?_⟩
    · rw [ihmap, hpl3, hmap2]
    · exact Relation.ReflTransGen.head hstep2 (hstep23.trans ihstep)
    · intro c hc
      exact ihlock c (hlock23 c (hlocksub2 c hc))
    · intro q hq hqids
      rw [List.map_cons] at hqids
      have hq1 : q.openId ≠ bot.openId := fun hcon =>
        hqids (hcon ▸ List.mem_cons_self _ _)
      have hq2 : q.openId ∉ rest.map Player.openId := fun hcon =>
        hqids (List.mem_cons_of_mem _ hcon)
      refine ihframe q ?_ hq2
      rw [hpl3]
      exact hframe2 q hq hq1
    · intro b hb
      rcases List.mem_cons.mp hb with rfl | hbr
      · refine ⟨chosen, hchALL, hchNotLocked, ?_, ?_⟩
        · obtain ⟨e2, he2, he2id, he2lk, he2sel⟩ := hentry2
          refine ⟨e2, ?_, he2id, he2lk, he2sel⟩
          refine ihframe e2 ?_ (by rw [he2id]; exact hrestids.1)
          rw [hpl3]
          exact he2
        · exact List.mem_cons_self _ _
      · obtain ⟨h, hALL, hnl3, hentryR, heventR⟩ := ihbots b hbr
        refine ⟨h, hALL, ?_, hentryR, ?_⟩
        · intro hcon
          exact hnl3 (hlock23 h (hlocksub2 h hcon))
        · exact List.mem_cons_of_mem _ (List.mem_append.mpr (Or.inr heventR))

/-- C9: once every human member is locked, `triggerBotsToLock` locks every
previously-unlocked bot to a hero drawn from the heroes not locked by anyone
at the time of its selection — hence a real hero distinct from every hero
already locked, humans' and earlier bots' picks included (uniqueness of the
final lock assignment) — and broadcasts PLAYER_HERO_LOCKED for each such
bot.  The draw index `draws k % avail.length` ranges over exactly the values
`Math.floor(Math.random() * avail.length)` produces, so the choice is
uniform whenever the draw is. -/
theorem claim_C9 :
    ∀ (room : Room) (draws : Nat → Nat) (now : Nat),
      (room.players.map Player.openId).Nodup →
      room.players.length ≤ 10 →
      heroLockAtMostOne room.players →
      (∀ p ∈ room.players, p.isBot = false → p.isHeroLocked = true) →
      heroLockAtMostOne (triggerBotsToLock room draws now).1.players ∧
      ((triggerBotsToLock room draws now).1.players.map Player.openId
        = room.players.map Player.openId) ∧
      (∀ b ∈ room.players, b.isBot = true → b.isHeroLocked = false →
        ∃ h, h ∈ ALL_HERO_IDS ∧ h ∉ getLockedCharacters room ∧
          (∃ e ∈ (triggerBotsToLock room draws now).1.players,
            e.openId = b.openId ∧ e.isHeroLocked = true ∧
            e.selectedHeroId = some h) ∧
          WsEvent.playerHeroLocked b.openId (some h) true
            ∈ (triggerBotsToLock room draws now).2) := by
  intro room draws now hnd hlen hinv hhumans
  by_cases hbots :
      (room.players.filter fun p => p.isBot && !p.isHeroLocked).isEmpty
  · have htr : triggerBotsToLock room draws now = (room, []) := by
      rw [triggerBotsToLock, if_pos hbots]
    rw [htr]
    refine ⟨hinv, rfl, ?_⟩
    intro b hb hbot hbl
    exfalso
    have hmem : b ∈ room.players.filter fun p => p.isBot && !p.isHeroLocked :=
      List.mem_filter.mpr ⟨hb, by simp [hbot, hbl]⟩
    rw [List.isEmpty_iff.mp hbots] at hmem
    exact List.not_mem_nil b hmem
  · have htr : triggerBotsToLock room draws now
        = ((lockBotsLoop room
              (room.players.filter fun p => p.isBot && !p.isHeroLocked)
              draws 0 now).1,
           (lockBotsLoop room
              (room.players.filter fun p => p.isBot && !p.isHeroLocked)
              draws 0 now).2 ++ [WsEvent.roomUpdate]) := by
      rw [triggerBotsToLock, if_neg hbots]
    have hbset : ∀ b ∈ room.players.filter
        (fun p => p.isBot && !p.isHeroLocked),
        ∃ e ∈ room.players, e.openId = b.openId ∧ e.isHeroLocked = false := by
      intro b hb
      obtain ⟨hb1, hb2⟩ := List.mem_filter.mp hb
      refine ⟨b, hb1, rfl, ?_⟩
      simp only [Bool.and_eq_true, Bool.not_eq_true'] at hb2
      exact hb2.2
    have hbnd2 : ((room.players.filter
        fun p => p.isBot && !p.isHeroLocked).map Player.openId).Nodup :=
      List.Nodup.sublist
        (List.Sublist.map Player.openId (List.filter_sublist room.players)) hnd
    obtain ⟨hmapL, hstepL, hlockL, hframeL, hbotsL⟩ :=
      lockBotsLoop_spec
        (room.players.filter fun p => p.isBot && !p.isHeroLocked)
        room draws 0 now hnd hlen hbset hbnd2
    rw [htr]
    refine ⟨heroLockAtMostOne_reachable hstepL hinv, hmapL, ?_⟩
    intro b hb hbot hbl
    have hbmem : b ∈ room.players.filter fun p => p.isBot && !p.isHeroLocked :=
      List.mem_filter.mpr ⟨hb, by simp [hbot, hbl]⟩
    obtain ⟨h, h1, h2, h3, h4⟩ := hbotsL b hbmem
    exact ⟨h, h1, h2, h3, List.mem_append.mpr (Or.inl h4)⟩

/-- The fixture `roomC9w` satisfies hero-lock uniqueness. -/
theorem heroLockAtMostOne_roomC9w : heroLockAtMostOne roomC9w.players := by
  intro hh
  simp only [roomC9w, locksHero, List.countP_cons, List.countP_nil]
  split <;> split <;> simp_all

/-- Witness for C9 at a concrete input: one locked human plus one unlocked
bot, with the constant-zero draw stream. -/
theorem claim_C9_witness :
    heroLockAtMostOne (triggerBotsToLock roomC9w (fun _ => 0) 7).1.players ∧
    ((triggerBotsToLock roomC9w (fun _ => 0) 7).1.players.map Player.openId
      = roomC9w.players.map Player.openId) ∧
    (∀ b ∈ roomC9w.players, b.isBot = true → b.isHeroLocked = false →
      ∃ h, h ∈ ALL_HERO_IDS ∧ h ∉ getLockedCharacters roomC9w ∧
        (∃ e ∈ (triggerBotsToLock roomC9w (fun _ => 0) 7).1.players,
          e.openId = b.openId ∧ e.isHeroLocked = true ∧
          e.selectedHeroId = some h) ∧
        WsEvent.playerHeroLocked b.openId (some h) true
          ∈ (triggerBotsToLock roomC9w (fun _ => 0) 7).2) :=
  claim_C9 roomC9w (fun _ => 0) 7 (by decide) (by decide)
    heroLockAtMostOne_roomC9w (by decide)

/-! ### Map generator: basic lemmas -/

theorem mem_gridCells {p : Pos} : p ∈ gridCells ↔ inGrid p = true := by
  rw [gridCells]
  constructor
  · intro h
    obtain ⟨n, hn, hp⟩ := List.mem_map.mp h
    rw [List.mem_range] at hn
    rw [← hp]
    simp only [inGrid, Bool.and_eq_true, decide_eq_true_eq]
    try dsimp only
    omega
  · intro h
    simp only [inGrid, Bool.and_eq_true, decide_eq_true_eq] at h
    refine List.mem_map.mpr ⟨p.y * 7 + p.x, ?_, ?_⟩
    · rw [List.mem_range]; omega
    · have hx : (p.y * 7 + p.x) % 7 = p.x := by omega
      have hy : (p.y * 7 + p.x) / 7 = p.y := by omega
      rw [hx, hy]

theorem Dir.opposite_opposite (d : Dir) : d.opposite.opposite = d := by
  cases d <;> rfl

theorem dirStepB_opposite {p q : Pos} {d : Dir}
    (h : dirStepB p d q = true) : dirStepB q d.opposite p = true := by
  cases d <;>
    simp only [dirStepB, Dir.opposite, Bool.and_eq_true, beq_iff_eq] at h ⊢ <;>
    omega

theorem recipAdjB_eq_true {E : ExitMap} {p q : Pos} :
    recipAdjB E p q = true ↔ inGrid p = true ∧ inGrid q = true ∧
      ∃ d : Dir, dirStepB p d q = true ∧ d ∈ E p ∧ d.opposite ∈ E q := by
  simp only [recipAdjB, Bool.and_eq_true, List.any_eq_true]
  constructor
  · rintro ⟨⟨hp, hq⟩, d, hd, ⟨hstep, hpe⟩, hqe⟩
    exact ⟨hp, hq, d, hstep, by simpa using hpe, by simpa using hqe⟩
  · rintro ⟨hp, hq, d, hstep, hpe, hqe⟩
    exact ⟨⟨hp, hq⟩, d, by cases d <;> simp, ⟨hstep, by simpa using hpe⟩,
      by simpa using hqe⟩

theorem recipAdjB_symm {E : ExitMap} {p q : Pos}
    (h : recipAdjB E p q = true) : recipAdjB E q p = true := by
  rw [recipAdjB_eq_true] at h ⊢
  obtain ⟨hp, hq, d, hstep, hpe, hqe⟩ := h
  refine ⟨hq, hp, d.opposite, dirStepB_opposite hstep, hqe, ?_⟩
  rw [Dir.opposite_opposite]
  exact hpe

theorem Reach.symm {E : ExitMap} {p q : Pos} (h : Reach E p q) :
    Reach E q p :=
  Relation.ReflTransGen.symmetric (fun _ _ hab => recipAdjB_symm hab) h

theorem ExitLE.refl (E : ExitMap) : ExitLE E E := fun _ _ h => h

theorem ExitLE.trans {E F G : ExitMap} (h1 : ExitLE E F) (h2 : ExitLE F G) :
    ExitLE E G := fun p d hd => h2 p d (h1 p d hd)

theorem addExit_le (E : ExitMap) (p : Pos) (d : Dir) :
    ExitLE E (addExit E p d) := by
  intro q e he
  rw [addExit]
  by_cases hq : q = p
  · subst hq
    rw [if_pos rfl]
    by_cases hd : (E q).contains d
    · rw [if_pos hd]; exact he
    · rw [if_neg hd]; exact List.mem_append.mpr (Or.inl he)
  · rw [if_neg hq]; exact he

theorem mem_addExit_self (E : ExitMap) (p : Pos) (d : Dir) :
    d ∈ addExit E p d p := by
  rw [addExit, if_pos rfl]
  by_cases hd : (E p).contains d
  · rw [if_pos hd]
    simpa using hd
  · rw [if_neg hd]
    exact List.mem_append.mpr (Or.inr (List.mem_singleton.mpr rfl))

theorem recipAdjB_mono {E F : ExitMap} (hle : ExitLE E F) {p q : Pos}
    (h : recipAdjB E p q = true) : recipAdjB F p q = true := by
  rw [recipAdjB_eq_true] at h ⊢
  obtain ⟨hp, hq, d, hstep, hpe, hqe⟩ := h
  exact ⟨hp, hq, d, hstep, hle p d hpe, hle q d.opposite hqe⟩

theorem Reach_mono {E F : ExitMap} (hle : ExitLE E F) {p q : Pos}
    (h : Reach E p q) : Reach F p q := by
  induction h with
  | refl => exact Relation.ReflTransGen.refl
  | tail _ hstep ih =>
    exact Relation.ReflTransGen.tail ih (recipAdjB_mono hle hstep)

/-- Soundness of the BFS: everything it visits is reachable from the start
(and lies in the grid). -/
theorem bfsAux_sound {E : ExitMap} {allRooms : List Pos} {start : Pos} :
    ∀ (fuel : Nat) (queue visited : List Pos),
      (∀ v ∈ visited, Reach E start v) →
      (∀ v ∈ queue, Reach E start v) →
      ∀ v ∈ bfsAux E allRooms fuel queue visited, Reach E start v := by
  intro fuel
  induction fuel with
  | zero => intro queue visited hv hq v hvmem; exact hv v hvmem
  | succ fuel ih =>
    intro queue visited hv hq v hvmem
    cases queue with
    | nil => exact hv v hvmem
    | cons cur rest =>
      rw [bfsAux] at hvmem
      refine ih _ _ ?_ ?_ v hvmem
      · intro w hw
        rcases List.mem_append.mp hw with h1 | h2
        · exact hv w h1
        · obtain ⟨-, hadj⟩ := List.mem_filter.mp h2
          simp only [Bool.and_eq_true] at hadj
          exact Relation.ReflTransGen.tail (hq cur (List.mem_cons_self _ _))
            hadj.1
      · intro w hw
        rcases List.mem_append.mp hw with h1 | h2
        · exact hq w (List.mem_cons_of_mem _ h1)
        · obtain ⟨-, hadj⟩ := List.mem_filter.mp h2
          simp only [Bool.and_eq_true] at hadj
          exact Relation.ReflTransGen.tail (hq cur (List.mem_cons_self _ _))
            hadj.1

theorem bfsVisited_sound {E : ExitMap} {allRooms : List Pos} {start : Pos} :
    ∀ v ∈ bfsVisited E allRooms start, Reach E start v := by
  intro v hv
  exact bfsAux_sound _ _ _
    (by intro w hw; rw [List.mem_singleton.mp hw]; exact .refl)
    (by intro w hw; rw [List.mem_singleton.mp hw]; exact .refl) v hv

/-- Everything the BFS visits lies in the grid (the start node is the hall). -/
theorem bfsAux_inGrid {E : ExitMap} {allRooms : List Pos} :
    ∀ (fuel : Nat) (queue visited : List Pos),
      (∀ v ∈ visited, inGrid v = true) →
      ∀ v ∈ bfsAux E allRooms fuel queue visited, inGrid v = true := by
  intro fuel
  induction fuel with
  | zero => intro queue visited hv v hvmem; exact hv v hvmem
  | succ fuel ih =>
    intro queue visited hv v hvmem
    cases queue with
    | nil => exact hv v hvmem
    | cons cur rest =>
      rw [bfsAux] at hvmem
      refine ih _ _ ?_ v hvmem
      intro w hw
      rcases List.mem_append.mp hw with h1 | h2
      · exact hv w h1
      · obtain ⟨-, hadj⟩ := List.mem_filter.mp h2
        simp only [Bool.and_eq_true, recipAdjB] at hadj
        exact hadj.1.1.2

theorem bfsVisited_inGrid {E : ExitMap} {allRooms : List Pos} :
    ∀ v ∈ bfsVisited E allRooms center, inGrid v = true := by
  intro v hv
  refine bfsAux_inGrid _ _ _ ?_ v hv
  intro w hw
  rw [List.mem_singleton.mp hw]
  rfl

/-- The nearest-connected-room scan lands in the visited set, provided the
start node is visited. -/
theorem closestConnected_mem {visited allRooms : List Pos} {r : Pos}
    (hc : center ∈ visited) : closestConnected visited allRooms r ∈ visited := by
  rw [closestConnected]
  suffices h : ∀ (l : List Pos) (b : Pos × Option Nat),
      (b.1 ∈ visited ∨ b = (center, none)) →
      ((l.foldl
        (fun best cand =>
          if visited.contains cand then
            match best.2 with
            | none => (cand, some (manhattan r cand))
            | some d =>
              if manhattan r cand < d then (cand, some (manhattan r cand))
              else best
          else best) b).1 ∈ visited ∨
       (l.foldl
        (fun best cand =>
          if visited.contains cand then
            match best.2 with
            | none => (cand, some (manhattan r cand))
            | some d =>
              if manhattan r cand < d then (cand, some (manhattan r cand))
              else best
          else best) b) = (center, none)) by
    rcases h allRooms (center, none) (Or.inr rfl) with h1 | h2
    · exact h1
    · rw [h2]; exact hc
  intro l
  induction l with
  | nil => intro b hb; exact hb
  | cons cand rest ih =>
    intro b hb
    rw [List.foldl_cons]
    refine ih _ ?_
    by_cases hcand : visited.contains cand
    · rw [if_pos hcand]
      cases hb2 : b.2 with
      | none => exact Or.inl (by simpa using hcand)
      | some d =>
        show ((if manhattan r cand < d then (cand, some (manhattan r cand))
            else b).1 ∈ visited ∨
          (if manhattan r cand < d then (cand, some (manhattan r cand))
            else b) = (center, none))
        by_cases hlt : manhattan r cand < d
        · rw [if_pos hlt]
          exact Or.inl (by simpa using hcand)
        · rw [if_neg hlt]
          exact hb
    · rw [if_neg hcand]
      exact hb

theorem mem_insertByDist {target r a : Pos} {l : List Pos} :
    a ∈ insertByDist target r l ↔ a = r ∨ a ∈ l := by
  induction l with
  | nil => simp [insertByDist]
  | cons q qs ih =>
    rw [insertByDist]
    by_cases hle : manhattan r target ≤ manhattan q target
    · rw [if_pos hle]
      simp
    · rw [if_neg hle]
      rw [List.mem_cons, ih, List.mem_cons]
      tauto

theorem mem_sortByDist {target a : Pos} {l : List Pos} :
    a ∈ sortByDist target l ↔ a ∈ l := by
  induction l with
  | nil => simp [sortByDist]
  | cons q qs ih =>
    rw [sortByDist, mem_insertByDist, ih, List.mem_cons]

/-- The head of the distance-sorted list is a member achieving the minimum
distance to the target. -/
theorem sortByDist_min {target : Pos} :
    ∀ (l : List Pos) (next : Pos) (rest : List Pos),
      sortByDist target l = next :: rest →
      next ∈ l ∧ ∀ q ∈ l, manhattan next target ≤ manhattan q target := by
  intro l
  induction l with
  | nil => intro next rest h; simp [sortByDist] at h
  | cons r rs ih =>
    intro next rest h
    rw [sortByDist] at h
    cases hs : sortByDist target rs with
    | nil =>
      rw [hs] at h
      rw [insertByDist] at h
      simp only [List.cons.injEq] at h
      obtain ⟨rfl, -⟩ := h
      have hrs : rs = [] := by
        cases hrs : rs with
        | nil => rfl
        | cons a as =>
          exfalso
          have : a ∈ sortByDist target rs := mem_sortByDist.mpr (by
            rw [hrs]; exact List.mem_cons_self _ _)
          rw [hs] at this
          exact List.not_mem_nil a this
      subst hrs
      refine ⟨List.mem_cons_self _ _, ?_⟩
      intro q hq
      rw [List.mem_singleton] at hq
      rw [hq]
    | cons m ms =>
      rw [hs] at h
      obtain ⟨hmmem, hmmin⟩ := ih m ms hs
      rw [insertByDist] at h
      by_cases hle : manhattan r target ≤ manhattan m target
      · rw [if_pos hle] at h
        simp only [List.cons.injEq] at h
        obtain ⟨rfl, -⟩ := h
        refine ⟨List.mem_cons_self _ _, ?_⟩
        intro q hq
        rcases List.mem_cons.mp hq with rfl | hq2
        · exact le_rfl
        · exact le_trans hle (hmmin q hq2)
      · rw [if_neg hle] at h
        simp only [List.cons.injEq] at h
        obtain ⟨rfl, -⟩ := h
        refine ⟨List.mem_cons_of_mem _ hmmem, ?_⟩
        intro q hq
        rcases List.mem_cons.mp hq with rfl | hq2
        · omega
        · exact hmmin q hq2

/-- On adjacent cells the computed direction steps from `a` to `b`. -/
theorem getDirection_spec {a b : Pos} (h : adjacentB a b = true) :
    dirStepB a (getDirection a b) b = true := by
  simp only [adjacentB, Bool.or_eq_true, Bool.and_eq_true, beq_iff_eq] at h
  unfold Nat.dist at h
  rw [getDirection]
  by_cases h1 : a.x < b.x
  · rw [if_pos h1]
    simp only [dirStepB, Bool.and_eq_true, beq_iff_eq]
    omega
  · rw [if_neg h1]
    by_cases h2 : b.x < a.x
    · rw [if_pos h2]
      simp only [dirStepB, Bool.and_eq_true, beq_iff_eq]
      omega
    · rw [if_neg h2]
      by_cases h3 : a.y < b.y
      · rw [if_pos h3]
        simp only [dirStepB, Bool.and_eq_true, beq_iff_eq]
        omega
      · rw [if_neg h3]
        simp only [dirStepB, Bool.and_eq_true, beq_iff_eq]
        omega

/-- Horizontal and vertical adjacency of explicit grid coordinates. -/
theorem adjacentB_right (x y : Nat) : adjacentB ⟨x, y⟩ ⟨x + 1, y⟩ = true := by
  simp only [adjacentB, Bool.or_eq_true, Bool.and_eq_true, beq_iff_eq]
  refine Or.inl ⟨?_, trivial⟩
  unfold Nat.dist
  omega

theorem adjacentB_left (x y : Nat) (hx : 1 ≤ x) :
    adjacentB ⟨x, y⟩ ⟨x - 1, y⟩ = true := by
  simp only [adjacentB, Bool.or_eq_true, Bool.and_eq_true, beq_iff_eq]
  refine Or.inl ⟨?_, trivial⟩
  unfold Nat.dist
  omega

theorem adjacentB_down (x y : Nat) : adjacentB ⟨x, y⟩ ⟨x, y + 1⟩ = true := by
  simp only [adjacentB, Bool.or_eq_true, Bool.and_eq_true, beq_iff_eq]
  refine Or.inr ⟨?_, trivial⟩
  unfold Nat.dist
  omega

theorem adjacentB_up (x y : Nat) (hy : 1 ≤ y) :
    adjacentB ⟨x, y⟩ ⟨x, y - 1⟩ = true := by
  simp only [adjacentB, Bool.or_eq_true, Bool.and_eq_true, beq_iff_eq]
  refine Or.inr ⟨?_, trivial⟩
  unfold Nat.dist
  omega

theorem inGrid_mk {x y : Nat} (hx : x < 7) (hy : y < 7) :
    inGrid ⟨x, y⟩ = true := by
  simp only [inGrid, Bool.and_eq_true, decide_eq_true_eq]
  exact ⟨hx, hy⟩

theorem manhattan_mk_mk (ax ay bx bz : Nat) :
    manhattan ⟨ax, ay⟩ ⟨bx, bz⟩
      = (ax - bx) + (bx - ax) + ((ay - bz) + (bz - ay)) := rfl

/-- Correctness of the greedy stitching walk on a full grid: starting and
ending on grid cells with fuel above the remaining distance, it succeeds,
only ever adds exits, and leaves a reciprocated-exit path from the start to
the target. -/
theorem createPath_spec :
    ∀ (fuel : Nat) (current : Pos) (visitedP : List Pos) (E : ExitMap)
      (endR : Pos) (allRooms : List Pos),
      (∀ p ∈ gridCells, p ∈ allRooms) →
      (∀ p ∈ allRooms, p ∈ gridCells) →
      inGrid current = true → inGrid endR = true →
      manhattan current endR < fuel →
      current ∈ visitedP →
      (∀ v ∈ visitedP, manhattan current endR ≤ manhattan v endR) →
      (createPath endR allRooms fuel current visitedP E).1 = true ∧
      ExitLE E (createPath endR allRooms fuel current visitedP E).2 ∧
      Reach (createPath endR allRooms fuel current visitedP E).2 current
        endR := by
  intro fuel
  induction fuel with
  | zero =>
    intro current visitedP E endR allRooms _ _ _ _ hfuel _ _
    omega
  | succ fuel ih =>
    intro current visitedP E endR allRooms hgrid1 hgrid2 hcur hend hfuel hcv
      hmin
    by_cases heqc : current = endR
    · subst heqc
      rw [createPath, if_pos rfl]
      exact ⟨rfl, ExitLE.refl E, Relation.ReflTransGen.refl⟩
    · have hcur2 : current.x < 7 ∧ current.y < 7 := by
        simpa [inGrid] using hcur
      have hend2 : endR.x < 7 ∧ endR.y < 7 := by
        simpa [inGrid] using hend
      have hdistpos : 0 < manhattan current endR := by
        rcases Nat.eq_zero_or_pos (manhattan current endR) with h0 | h
        · exfalso
          apply heqc
          unfold manhattan Nat.dist at h0
          have hx : current.x = endR.x := by omega
          have hy : current.y = endR.y := by omega
          cases current
          cases endR
          simp_all
        · exact h
      obtain ⟨c, hcadj, hcgrid, hcdist⟩ :
          ∃ c : Pos, adjacentB current c = true ∧ inGrid c = true ∧
            manhattan c endR + 1 = manhattan current endR := by
        have hmcur : manhattan current endR
            = (current.x - endR.x) + (endR.x - current.x)
              + ((current.y - endR.y) + (endR.y - current.y)) :=
          manhattan_mk_mk current.x current.y endR.x endR.y
        by_cases hx1 : current.x < endR.x
        · refine ⟨⟨current.x + 1, current.y⟩, adjacentB_right current.x
            current.y, inGrid_mk (by omega) (by omega), ?_⟩
          rw [hmcur, manhattan_mk_mk]
          omega
        · by_cases hx2 : endR.x < current.x
          · refine ⟨⟨current.x - 1, current.y⟩, adjacentB_left current.x
              current.y (by omega), inGrid_mk (by omega) (by omega), ?_⟩
            rw [hmcur, manhattan_mk_mk]
            omega
          · by_cases hy1 : current.y < endR.y
            · refine ⟨⟨current.x, current.y + 1⟩, adjacentB_down current.x
                current.y, inGrid_mk (by omega) (by omega), ?_⟩
              rw [hmcur, manhattan_mk_mk]
              omega
            · have hy2 : endR.y < current.y := by
                rw [hmcur] at hdistpos
                omega
              refine ⟨⟨current.x, current.y - 1⟩, adjacentB_up current.x
                current.y (by omega), inGrid_mk (by omega) (by omega), ?_⟩
              rw [hmcur, manhattan_mk_mk]
              omega
      have hcNotVis : c ∉ visitedP := by
        intro hcv2
        have := hmin c hcv2
        omega
      have hcmem : c ∈ allRooms := hgrid1 c (mem_gridCells.mpr hcgrid)
      have hcnbrs : c ∈ allRooms.filter
          (fun q => adjacentB current q && !(visitedP.contains q)) :=
        List.mem_filter.mpr ⟨hcmem, by simp [hcadj, hcNotVis]⟩
      cases hsort : sortByDist endR (allRooms.filter
          (fun q => adjacentB current q && !(visitedP.contains q))) with
      | nil =>
        exfalso
        have hcs : c ∈ sortByDist endR (allRooms.filter
            (fun q => adjacentB current q && !(visitedP.contains q))) :=
          mem_sortByDist.mpr hcnbrs
        rw [hsort] at hcs
        exact List.not_mem_nil c hcs
      | cons next rest =>
        obtain ⟨hnextmem, hnextmin⟩ := sortByDist_min _ next rest hsort
        obtain ⟨hnextrooms, hnextpred⟩ := List.mem_filter.mp hnextmem
        simp only [Bool.and_eq_true, Bool.not_eq_true'] at hnextpred
        have hnadj : adjacentB current next = true := hnextpred.1
        have hnNotVis : next ∉ visitedP := by
          have := hnextpred.2
          simpa using this
        have hngrid : inGrid next = true :=
          mem_gridCells.mp (hgrid2 next hnextrooms)
        have hnextle : manhattan next endR ≤ manhattan c endR :=
          hnextmin c hcnbrs
        have hmain : createPath endR allRooms (fuel + 1) current visitedP E
            = createPath endR allRooms fuel next (visitedP ++ [next])
                (addExit (addExit E current (getDirection current next)) next
                  (getDirection current next).opposite) := by
          rw [createPath, if_neg heqc]
          simp only [hsort]
        rw [hmain]
        have hfuel2 : manhattan next endR < fuel := by omega
        have hcv2 : next ∈ visitedP ++ [next] :=
          List.mem_append.mpr (Or.inr (List.mem_singleton.mpr rfl))
        have hmin2 : ∀ v ∈ visitedP ++ [next],
            manhattan next endR ≤ manhattan v endR := by
          intro v hv
          rcases List.mem_append.mp hv with h1 | h2
          · have := hmin v h1
            omega
          · rw [List.mem_singleton.mp h2]
        obtain ⟨ihs, ihle, ihreach⟩ := ih next (visitedP ++ [next])
          (addExit (addExit E current (getDirection current next)) next
            (getDirection current next).opposite) endR allRooms hgrid1 hgrid2
          hngrid hend hfuel2 hcv2 hmin2
        have hle1 : ExitLE E (addExit (addExit E current
            (getDirection current next)) next
            (getDirection current next).opposite) :=
          (addExit_le E current (getDirection current next)).trans
            (addExit_le _ next (getDirection current next).opposite)
        refine ⟨ihs, hle1.trans ihle, ?_⟩
        have hne2 : current ≠ next := fun hcc => hnNotVis (hcc ▸ hcv)
        have hedge2 : recipAdjB (addExit (addExit E current
            (getDirection current next)) next
            (getDirection current next).opposite) current next = true := by
          rw [recipAdjB_eq_true]
          refine ⟨hcur, hngrid, getDirection current next,
            getDirection_spec hnadj, ?_, ?_⟩
          · show getDirection current next ∈
              addExit (addExit E current (getDirection current next)) next
                (getDirection current next).opposite current
            rw [addExit]
            rw [if_neg hne2]
            exact mem_addExit_self E current _
          · exact mem_addExit_self _ next _
        exact Relation.ReflTransGen.head (recipAdjB_mono ihle hedge2) ihreach

/-- The BFS only ever appends to its visited accumulator. -/
theorem bfsAux_subset {E : ExitMap} {allRooms : List Pos} :
    ∀ (fuel : Nat) (queue visited : List Pos),
      visited ⊆ bfsAux E allRooms fuel queue visited := by
  intro fuel
  induction fuel with
  | zero => intro queue visited v hv; exact hv
  | succ fuel ih =>
    intro queue visited v hv
    cases queue with
    | nil => exact hv
    | cons cur rest =>
      rw [bfsAux]
      exact ih _ _ (List.mem_append.mpr (Or.inl hv))

theorem center_mem_bfsVisited {E : ExitMap} {allRooms : List Pos} :
    center ∈ bfsVisited E allRooms center := by
  rw [bfsVisited]
  exact bfsAux_subset _ _ _ (List.mem_singleton.mpr rfl)

/-- Distances inside the grid are below the stitching fuel. -/
theorem manhattan_lt_fuel {a b : Pos} (ha : inGrid a = true)
    (hb : inGrid b = true) : manhattan a b < 49 := by
  have ha2 : a.x < 7 ∧ a.y < 7 := by simpa [inGrid] using ha
  have hb2 : b.x < 7 ∧ b.y < 7 := by simpa [inGrid] using hb
  have hm := manhattan_mk_mk a.x a.y b.x b.y
  rw [hm]
  omega

/-- The stitching fold: every already-reached room stays reachable, every
processed room becomes reachable, and exits only accumulate. -/
theorem ensure_fold_spec :
    ∀ (toGo : List Pos) (Ecur : ExitMap) (visited allRooms : List Pos),
      (∀ p ∈ gridCells, p ∈ allRooms) →
      (∀ p ∈ allRooms, p ∈ gridCells) →
      (∀ v ∈ visited, inGrid v = true) →
      center ∈ visited →
      (∀ v ∈ visited, Reach Ecur center v) →
      (∀ r ∈ toGo, inGrid r = true) →
      (∀ v ∈ visited, Reach (toGo.foldl (fun E r =>
        (createPath (closestConnected visited allRooms r) allRooms 49 r [r]
          E).2) Ecur) center v) ∧
      (∀ r ∈ toGo, Reach (toGo.foldl (fun E r =>
        (createPath (closestConnected visited allRooms r) allRooms 49 r [r]
          E).2) Ecur) center r) ∧
      ExitLE Ecur (toGo.foldl (fun E r =>
        (createPath (closestConnected visited allRooms r) allRooms 49 r [r]
          E).2) Ecur) := by
  intro toGo
  induction toGo with
  | nil =>
    intro Ecur visited allRooms _ _ _ _ hvreach _
    exact ⟨fun v hv => hvreach v hv,
      fun r hr => absurd hr (List.not_mem_nil r), ExitLE.refl Ecur⟩
  | cons r rest ih =>
    intro Ecur visited allRooms hg1 hg2 hvgrid hcenter hvreach htoGo
    have hrgrid : inGrid r = true := htoGo r (List.mem_cons_self _ _)
    have htarget : closestConnected visited allRooms r ∈ visited :=
      closestConnected_mem hcenter
    have htgrid : inGrid (closestConnected visited allRooms r) = true :=
      hvgrid _ htarget
    obtain ⟨-, hle1, hreach1⟩ := createPath_spec 49 r [r] Ecur
      (closestConnected visited allRooms r) allRooms hg1 hg2 hrgrid htgrid
      (manhattan_lt_fuel hrgrid htgrid) (List.mem_singleton.mpr rfl)
      (by
        intro v hv
        rw [List.mem_singleton.mp hv])
    rw [List.foldl_cons]
    obtain ⟨ihv, ihrest, ihle⟩ := ih
      (createPath (closestConnected visited allRooms r) allRooms 49 r [r]
        Ecur).2 visited allRooms hg1 hg2 hvgrid hcenter
      (fun v hv => Reach_mono hle1 (hvreach v hv))
      (fun q hq => htoGo q (List.mem_cons_of_mem _ hq))
    refine ⟨ihv, ?_, hle1.trans ihle⟩
    intro q hq
    rcases List.mem_cons.mp hq with rfl | hq2
    · have hcr : Reach (createPath (closestConnected visited allRooms q)
          allRooms 49 q [q] Ecur).2 center q :=
        Relation.ReflTransGen.trans
          (Reach_mono hle1 (hvreach _ htarget)) (Reach.symm hreach1)
      exact Reach_mono ihle hcr
    · exact ihrest q hq2

/-- C2: after the map generator's connectivity pass, every cell of the 7×7
grid is reachable from the hall at (3,3) along reciprocated exits.
`generateRooms` builds some initial exit assignment over exactly the 49 grid
cells (for either game mode and any random draws) and finishes with
`ensureRoomConnections`, so quantifying over every initial assignment and
every room list containing exactly the grid cells covers every mode and
seed of the normally-generated layout. -/
theorem claim_C2 :
    ∀ (E0 : ExitMap) (allRooms : List Pos),
      (∀ p ∈ gridCells, p ∈ allRooms) →
      (∀ p ∈ allRooms, p ∈ gridCells) →
      ∀ p ∈ gridCells,
        Reach (ensureRoomConnections E0 allRooms) center p := by
  intro E0 allRooms hg1 hg2 p hp
  show Reach ((allRooms.filter fun r =>
      !((bfsVisited E0 allRooms center).contains r)).foldl
    (fun Ecur r =>
      (createPath (closestConnected (bfsVisited E0 allRooms center) allRooms
        r) allRooms 49 r [r] Ecur).2) E0) center p
  obtain ⟨hfinv, hfing, -⟩ := ensure_fold_spec
    (allRooms.filter fun r => !((bfsVisited E0 allRooms center).contains r))
    E0 (bfsVisited E0 allRooms center) allRooms hg1 hg2
    (fun v hv => bfsVisited_inGrid v hv)
    center_mem_bfsVisited
    (fun v hv => bfsVisited_sound v hv)
    (fun r hr => mem_gridCells.mp (hg2 r (List.mem_filter.mp hr).1))
  by_cases hpv : p ∈ bfsVisited E0 allRooms center
  · exact hfinv p hpv
  · refine hfing p (List.mem_filter.mpr ⟨hg1 p hp, ?_⟩)
    simpa using hpv

/-- Witness for C2 at a concrete input: the all-empty initial exit
assignment over the canonical grid enumeration; the bottom-left cell (0,0)
is reachable from the hall after the pass. -/
theorem claim_C2_witness :
    Reach (ensureRoomConnections (fun _ => []) gridCells) center ⟨0, 0⟩ :=
  claim_C2 (fun _ => []) gridCells (fun p hp => hp) (fun p hp => hp)
    ⟨0, 0⟩ (by decide)

end MishiServer
